import Mathlib

/-!
The connection table and prober state machine of simple-udp-ping.

Shallow embedding of `apps/simple-udp-ping/simple-udp-ping.c`.

* The table `pingconns[MAX_DESTINATIONS]` is a list of slots; `MAX_DESTINATIONS`
  (the absent macro `UIP_DS6_NBR_NB`) is the length of that list.
* The `static int last` of `allocate_pingconn` is a field of the state.
* The three `for(i = 0; i < MAX_DESTINATIONS; i++)` loops all stop at the first
  slot that passes their test; they are instances of `first_index`.
* A write to `pingconns[i]` with `i` outside `0 .. MAX_DESTINATIONS-1` has no
  defined behaviour in C; an operation that performs one returns `none`.
* Clock readings (`clock_time()`, `RTIMER_NOW()`) are inputs of the operation
  that reads them.  The widths of `int`, `clock_time_t`, `rtimer_clock_t` and the
  constants `CLOCK_SECOND`, `RTIMER_SECOND` come from platform headers and are
  fields of `Platform`.
-/

namespace SimpleUdpPing

/-- The type `uip_ipaddr_t`: an address is the number its bytes spell;
`uip_ipaddr_cmp` is equality. -/
abbrev uip_ipaddr_t := Nat

/-- What the platform headers fix: the width of `int`, the widths of the unsigned
types `clock_time_t` and `rtimer_clock_t`, and the two tick rates. -/
structure Platform where
  int_bits : Nat
  clock_bits : Nat
  rtimer_bits : Nat
  CLOCK_SECOND : Nat
  RTIMER_SECOND : Nat
deriving DecidableEq

/-- The record `struct pingconn_t`.  The four `uint8_t` flags are only ever
assigned 0 or 1 and only ever tested for zero, so they are booleans. -/
structure pingconn_t where
  in_use : Bool
  waiting : Bool
  sent : Bool
  replied : Bool
  echo_time : Nat
  echo_time2 : Nat
  delay : Nat
  host : uip_ipaddr_t
deriving DecidableEq

/-- The static data of the module: the table `pingconns` and the cursor `last`
of `allocate_pingconn`. -/
structure State where
  pingconns : List pingconn_t
  last : Nat
deriving DecidableEq

/-- A datagram handed to `simple_udp_sendto`. -/
structure Datagram where
  data : List Nat
  dest : uip_ipaddr_t
deriving DecidableEq

/-- The constant `DATALEN`. -/
def DATALEN : Nat := 4

/-- The bytes of the string literal "ping". -/
def PING : List Nat := [112, 105, 110, 103]

/-- The bytes of the string literal "echo". -/
def ECHO : List Nat := [101, 99, 104, 111]

/-- The macro `MAX_DESTINATIONS`: the number of elements of `pingconns`. -/
def MAX_DESTINATIONS (s : State) : Nat := s.pingconns.length

/-- A zero-initialised slot (static storage). -/
def zero_conn : pingconn_t :=
  { in_use := false, waiting := false, sent := false, replied := false,
    echo_time := 0, echo_time2 := 0, delay := 0, host := 0 }

/-- The state when the process loop is first entered: static storage is zeroed,
`PROCESS_BEGIN` clears every `in_use`, and `last` starts at `MAX_DESTINATIONS`. -/
def init (n : Nat) : State :=
  { pingconns := List.replicate n zero_conn, last := n }

/-- The loop `for(i = 0; i < MAX_DESTINATIONS; i++) if(test(pingconns[i])) return i;`:
the index of the first slot passing `p`. -/
def first_index (p : pingconn_t → Bool) : List pingconn_t → Option Nat
  | [] => none
  | c :: cs => if p c then some 0 else (first_index p cs).map (· + 1)

/-- The assignment `pingconns[i] = f(pingconns[i])` for an index inside the table. -/
def modify_at (f : pingconn_t → pingconn_t) : List pingconn_t → Nat → List pingconn_t
  | [], _ => []
  | c :: cs, 0 => f c :: cs
  | c :: cs, i + 1 => c :: modify_at f cs i

/-- The slot `pingconns[i]`. -/
def pingconn_at (s : State) (i : Nat) : pingconn_t := s.pingconns.getD i zero_conn

/-- The function `get_pingconn`: the index of the first slot that is in use and
whose host equals `addr`; `none` is the NULL result. -/
def get_pingconn (s : State) (addr : uip_ipaddr_t) : Option Nat :=
  first_index (fun c => c.in_use && decide (c.host = addr)) s.pingconns

/-- The first loop of `allocate_pingconn`: the first slot not in use. -/
def first_free (s : State) : Option Nat :=
  first_index (fun c => !c.in_use) s.pingconns

/-- The cursor update of `allocate_pingconn`:
`last++; if(last > MAX_DESTINATIONS) last = 0;`. -/
def next_last (s : State) : Nat :=
  if s.last + 1 > MAX_DESTINATIONS s then 0 else s.last + 1

/-- The two assignments `in_use = 1; uip_ipaddr_copy(&host, addr)`. -/
def claim (addr : uip_ipaddr_t) (c : pingconn_t) : pingconn_t :=
  { c with in_use := true, host := addr }

/-- The function `allocate_pingconn`: the new state and the index of the slot
returned.  `none`: the victim index is outside the table. -/
def allocate_pingconn (s : State) (addr : uip_ipaddr_t) : Option (State × Nat) :=
  match first_free s with
  | some i => some ({ s with pingconns := modify_at (claim addr) s.pingconns i }, i)
  | none =>
    if next_last s < MAX_DESTINATIONS s then
      some ({ pingconns := modify_at (claim addr) s.pingconns (next_last s),
              last := next_last s }, next_last s)
    else none

/-- The assignment `in_use = 0` of `free_pingconn`. -/
def release (c : pingconn_t) : pingconn_t := { c with in_use := false }

/-- The function `free_pingconn`. -/
def free_pingconn (s : State) (addr : uip_ipaddr_t) : State :=
  match get_pingconn s addr with
  | some i => { s with pingconns := modify_at release s.pingconns i }
  | none => s

/-- The tail of `simple_udp_ping_send_ping`: `replied = 0; waiting = 1`. -/
def arm (c : pingconn_t) : pingconn_t := { c with replied := false, waiting := true }

/-- The function `simple_udp_ping_send_ping` (its return value is always -1). -/
def simple_udp_ping_send_ping (s : State) (addr : uip_ipaddr_t) : Option State :=
  match get_pingconn s addr with
  | some i => some { s with pingconns := modify_at arm s.pingconns i }
  | none =>
    match allocate_pingconn s addr with
    | some (s1, i) => some { s1 with pingconns := modify_at arm s1.pingconns i }
    | none => none

/-- The assignments `replied = 0; sent = 0` of `simple_udp_ping_clear_conn`. -/
def disarm (c : pingconn_t) : pingconn_t := { c with replied := false, sent := false }

/-- The function `simple_udp_ping_clear_conn`. -/
def simple_udp_ping_clear_conn (s : State) (addr : uip_ipaddr_t) : State :=
  match get_pingconn s addr with
  | none => s
  | some i => { s with pingconns := modify_at disarm s.pingconns i }

/-- The function `simple_udp_ping_has_reply`. -/
def simple_udp_ping_has_reply (s : State) (addr : uip_ipaddr_t) : Int :=
  match get_pingconn s addr with
  | none => 0
  | some i => if !(pingconn_at s i).replied then 0 else 1

/-- The function `simple_udp_ping_has_sent`. -/
def simple_udp_ping_has_sent (s : State) (addr : uip_ipaddr_t) : Int :=
  match get_pingconn s addr with
  | none => 0
  | some i =>
    if (pingconn_at s i).waiting then 1
    else if (pingconn_at s i).sent then 1
    else 0

/-- The conversion `(int)x` of an unsigned value (two's complement wrap). -/
def to_int (P : Platform) (x : Nat) : Int :=
  if x % 2 ^ P.int_bits < 2 ^ (P.int_bits - 1) then ((x % 2 ^ P.int_bits : Nat) : Int)
  else ((x % 2 ^ P.int_bits : Nat) : Int) - ((2 ^ P.int_bits : Nat) : Int)

/-- The conversion to `uint32_t`. -/
def to_uint32 (x : Int) : Nat := (x % 4294967296).toNat

/-- The C expression `a - b` for operands of an unsigned type of `w` bits: a type
narrower than `int` is promoted to `int`, otherwise the arithmetic is modulo `2^w`. -/
def c_sub (P : Platform) (w a b : Nat) : Int :=
  if w < P.int_bits then (a : Int) - (b : Int)
  else ((a : Int) - (b : Int)) % ((2 ^ w : Nat) : Int)

/-- The function `simple_udp_ping_get_delay`. -/
def simple_udp_ping_get_delay (P : Platform) (s : State) (addr : uip_ipaddr_t) : Int :=
  match get_pingconn s addr with
  | none => -1
  | some i =>
    if !(pingconn_at s i).replied then -1
    else to_int P (((1000 * (pingconn_at s i).delay) % 4294967296) / P.RTIMER_SECOND)

/-- The delay computation of the echo branch of `receiver`; `now_c1` and `now_c2`
are the two readings of `clock_time()`, `now_f` the reading of `RTIMER_NOW()`. -/
def echo_delay (P : Platform) (c : pingconn_t) (now_c1 now_c2 now_f : Nat) : Nat :=
  if c_sub P P.clock_bits now_c1 c.echo_time2 > (P.CLOCK_SECOND : Int) then
    ((to_uint32 (c_sub P P.clock_bits now_c2 c.echo_time2) * P.RTIMER_SECOND) % 4294967296)
      / P.CLOCK_SECOND
  else to_uint32 (c_sub P P.rtimer_bits now_f c.echo_time)

/-- The assignments of the echo branch of `receiver` to the slot found. -/
def on_echo (P : Platform) (now_c1 now_c2 now_f : Nat) (c : pingconn_t) : pingconn_t :=
  { c with replied := true, sent := false, delay := echo_delay P c now_c1 now_c2 now_f }

/-- The callback `receiver`: the new state and the datagrams sent. -/
def receiver (P : Platform) (s : State) (sender_addr : uip_ipaddr_t) (data : List Nat)
    (now_c1 now_c2 now_f : Nat) : State × List Datagram :=
  if data.length = DATALEN ∧ data.take 4 = PING then
    (s, [{ data := ECHO, dest := sender_addr }])
  else if data.length = DATALEN ∧ data.take 4 = ECHO then
    match get_pingconn s sender_addr with
    | some i => ({ s with pingconns := modify_at (on_echo P now_c1 now_c2 now_f) s.pingconns i }, [])
    | none => (s, [])
  else (s, [])

/-- The assignments of the process loop to the slot it sends a ping for. -/
def on_send (now_f now_c : Nat) (c : pingconn_t) : pingconn_t :=
  { c with waiting := false, echo_time := now_f, echo_time2 := now_c, sent := true,
           replied := false }

/-- One iteration of the `while(1)` loop of the process `simple_udp_ping_process`,
from the expiry of the timer on: the new state and the datagrams sent; `now_f` is
the reading of `RTIMER_NOW()`, `now_c` the reading of `clock_time()`. -/
def simple_udp_ping_process (s : State) (now_f now_c : Nat) : State × List Datagram :=
  match first_index (fun c => c.in_use && c.waiting) s.pingconns with
  | some i =>
    ({ s with pingconns := modify_at (on_send now_f now_c) s.pingconns i },
     [{ data := PING, dest := (pingconn_at s i).host }])
  | none => (s, [])

/-- What can happen to the module between two observations. -/
inductive Event where
  | send_ping (addr : uip_ipaddr_t)
  | clear_conn (addr : uip_ipaddr_t)
  | free (addr : uip_ipaddr_t)
  | tick (now_f now_c : Nat)
  | recv (sender : uip_ipaddr_t) (data : List Nat) (now_c1 now_c2 now_f : Nat)
deriving DecidableEq

/-- The state after one event. -/
def step (P : Platform) (s : State) : Event → Option State
  | .send_ping a => simple_udp_ping_send_ping s a
  | .clear_conn a => some (simple_udp_ping_clear_conn s a)
  | .free a => some (free_pingconn s a)
  | .tick f c => some (simple_udp_ping_process s f c).1
  | .recv a d c1 c2 f => some (receiver P s a d c1 c2 f).1

/-- The state after a sequence of events. -/
def run (P : Platform) : State → List Event → Option State
  | s, [] => some s
  | s, e :: es =>
    match step P s e with
    | some s1 => run P s1 es
    | none => none

/-- A 16-bit platform (MSP430 class): `int` has 16 bits, `clock_time_t` is
`unsigned long`, `rtimer_clock_t` is `unsigned short`, 128 clock ticks and 32768
rtimer ticks per second. -/
def msp430 : Platform :=
  { int_bits := 16, clock_bits := 32, rtimer_bits := 16, CLOCK_SECOND := 128, RTIMER_SECOND := 32768 }

/-- A 32-bit platform (Cortex-M class): `int`, `clock_time_t` and `rtimer_clock_t`
have 32 bits, 128 clock ticks and 32768 rtimer ticks per second. -/
def cortex_m : Platform :=
  { int_bits := 32, clock_bits := 32, rtimer_bits := 32, CLOCK_SECOND := 128, RTIMER_SECOND := 32768 }


/-- The event is an inbound "echo" from `A` (the echo branch of `receiver` runs for `A`). -/
def is_echo_from (A : uip_ipaddr_t) : Event → Bool
  | .recv B d _ _ _ => decide (B = A) && decide (d.length = DATALEN ∧ d.take 4 = ECHO)
  | _ => false

/-- The event is a probe request that evicts the slot tracking `A`: the requested
address is not tracked, no slot is free, and the victim is the slot of `A`. -/
def evicts (s : State) (A : uip_ipaddr_t) : Event → Bool
  | .send_ping B => decide (get_pingconn s B = none) && decide (first_free s = none)
      && decide (get_pingconn s A = some (next_last s))
  | _ => false

/-- The event is a call of `free_pingconn`. -/
def is_free : Event → Bool
  | .free _ => true
  | _ => false

/-- The events under which an outstanding probe for `A` is said to stay outstanding:
driver ticks, probe requests and clears on any address, inbound pings, inbound
echoes from other addresses and malformed payloads, as long as no echo from `A`
is processed and the slot of `A` is not evicted. -/
def stays_ok_stated (A : uip_ipaddr_t) (s : State) (e : Event) : Bool :=
  !is_echo_from A e && !evicts s A e && !is_free e

/-- The events under which an outstanding probe for `A` does stay outstanding:
as `stays_ok_stated`, without a clear of `A`; releases of other addresses are
allowed as well. -/
def stays_ok (A : uip_ipaddr_t) (s : State) (e : Event) : Bool :=
  !is_echo_from A e && !evicts s A e && decide (e ≠ Event.free A)
    && decide (e ≠ Event.clear_conn A)

/-- Every event of the sequence passes `ok` in the state it meets and goes through. -/
def all_ok (ok : State → Event → Bool) (P : Platform) : State → List Event → Bool
  | _, [] => true
  | s, e :: es =>
    ok s e && (match step P s e with
      | some s1 => all_ok ok P s1 es
      | none => false)

/-- No two in-use slots of the table hold the same address. -/
def unique_hosts (s : State) : Prop :=
  ∀ (i j : Nat) (ci cj : pingconn_t), s.pingconns[i]? = some ci → s.pingconns[j]? = some cj →
    ci.in_use = true → cj.in_use = true → ci.host = cj.host → i = j

/-- Slot `i` tracks `addr` and its probe is waiting or sent. -/
def outstanding_at (s : State) (addr : uip_ipaddr_t) (i : Nat) : Prop :=
  get_pingconn s addr = some i ∧
    ∃ c, s.pingconns[i]? = some c ∧ (c.waiting = true ∨ c.sent = true)

/-- The slot left by a probe request that claimed a zero-initialised slot. -/
def armed_slot (a : uip_ipaddr_t) : pingconn_t := arm (claim a zero_conn)

/-- No slot has `sent` and `replied` both set. -/
def no_sent_replied (s : State) : Prop :=
  ∀ c ∈ s.pingconns, ¬ (c.sent = true ∧ c.replied = true)

end SimpleUdpPing

/-!
The poll operation of the tap bridge, `apps/ip64/ip64-tap.c`.  The results of the
system calls `select` and `read` are inputs of the operation.
-/

namespace Ip64Tap

/-- The conversion to `uint16_t`. -/
def to_uint16 (x : Int) : Nat := (x % 65536).toNat

/-- The function `ip64_tap_poll`: `select_ret` is what `select` returns, `read_ret`
what `read(fd, buf, buflen)` returns when it is called; the result is the returned
`uint16_t`. -/
def ip64_tap_poll (select_ret read_ret : Int) : Nat :=
  if select_ret = 0 then 0 else to_uint16 read_ret

end Ip64Tap

namespace SimpleUdpPing

/-! ## Lemmas on the table primitives -/

theorem length_modify_at (f : pingconn_t → pingconn_t) (l : List pingconn_t) (i : Nat) :
    (modify_at f l i).length = l.length := by
  induction l generalizing i with
  | nil => rfl
  | cons c cs ih => cases i <;> simp [modify_at, ih]

theorem getElem?_modify_at (f : pingconn_t → pingconn_t) (l : List pingconn_t) (i j : Nat) :
    (modify_at f l i)[j]? = if j = i then (l[j]?).map f else l[j]? := by
  induction l generalizing i j with
  | nil => simp [modify_at]
  | cons c cs ih =>
    cases i with
    | zero => cases j <;> simp [modify_at]
    | succ i => cases j <;> simp [modify_at, ih]

theorem getElem?_modify_at_self (f : pingconn_t → pingconn_t) (l : List pingconn_t) (i : Nat) :
    (modify_at f l i)[i]? = (l[i]?).map f := by
  simp [getElem?_modify_at]

theorem getElem?_modify_at_ne (f : pingconn_t → pingconn_t) (l : List pingconn_t) {i j : Nat}
    (h : j ≠ i) : (modify_at f l i)[j]? = l[j]? := by
  simp [getElem?_modify_at, h]

theorem modify_at_of_length_le (f : pingconn_t → pingconn_t) (l : List pingconn_t) (i : Nat)
    (h : l.length ≤ i) : modify_at f l i = l := by
  induction l generalizing i with
  | nil => rfl
  | cons c cs ih =>
    cases i with
    | zero => simp at h
    | succ i => simp [modify_at, ih i (by simpa using h)]

theorem first_index_eq_some_iff (p : pingconn_t → Bool) (l : List pingconn_t) (i : Nat) :
    first_index p l = some i ↔
      (∃ c, l[i]? = some c ∧ p c = true) ∧ ∀ j, j < i → ∀ c, l[j]? = some c → p c = false := by
  induction l generalizing i with
  | nil => simp [first_index]
  | cons c cs ih =>
    by_cases hc : p c = true
    · simp only [first_index, hc, if_true]
      constructor
      · intro h
        have h0 : i = 0 := by simpa using h.symm
        subst h0
        exact ⟨⟨c, by simp, hc⟩, fun j hj => absurd hj (Nat.not_lt_zero j)⟩
      · rintro ⟨_, h2⟩
        cases i with
        | zero => rfl
        | succ i =>
          have := h2 0 (Nat.succ_pos i) c (by simp)
          rw [hc] at this
          cases this
    · have hc2 : p c = false := by simpa using hc
      simp only [first_index, hc2]
      cases i with
      | zero =>
        constructor
        · intro h
          cases hfi : first_index p cs with
          | none => rw [hfi] at h; cases h
          | some k => rw [hfi] at h; simp at h
        · rintro ⟨⟨c1, h1, h2⟩, _⟩
          simp at h1
          subst h1
          rw [hc2] at h2
          cases h2
      | succ i =>
        have key : ((first_index p cs).map (· + 1) = some (i + 1)) ↔ first_index p cs = some i := by
          cases first_index p cs <;> simp
        simp only [Bool.false_eq_true, if_false]
        rw [key, ih i]
        constructor
        · rintro ⟨⟨c1, h1, h2⟩, h3⟩
          refine ⟨⟨c1, by simpa using h1, h2⟩, ?_⟩
          intro j hj c2 hj2
          cases j with
          | zero =>
            simp at hj2
            subst hj2
            exact hc2
          | succ j => exact h3 j (by omega) c2 (by simpa using hj2)
        · rintro ⟨⟨c1, h1, h2⟩, h3⟩
          refine ⟨⟨c1, by simpa using h1, h2⟩, ?_⟩
          intro j hj c2 hj2
          exact h3 (j + 1) (by omega) c2 (by simpa using hj2)

theorem first_index_eq_none_iff (p : pingconn_t → Bool) (l : List pingconn_t) :
    first_index p l = none ↔ ∀ (j : Nat) (c : pingconn_t), l[j]? = some c → p c = false := by
  induction l with
  | nil => simp [first_index]
  | cons c cs ih =>
    by_cases hc : p c = true
    · simp only [first_index, hc, if_true]
      constructor
      · intro h; cases h
      · intro h
        have := h 0 c (by simp)
        rw [hc] at this
        cases this
    · have hc2 : p c = false := by simpa using hc
      have key : ((first_index p cs).map (· + 1) = none) ↔ first_index p cs = none := by
        cases first_index p cs <;> simp
      simp only [first_index, hc2, Bool.false_eq_true, if_false]
      rw [key, ih]
      constructor
      · intro h j c1 hj
        cases j with
        | zero =>
          simp at hj
          subst hj
          exact hc2
        | succ j => exact h j c1 (by simpa using hj)
      · intro h j c1 hj
        exact h (j + 1) c1 (by simpa using hj)

theorem first_index_lt_length {p : pingconn_t → Bool} {l : List pingconn_t} {i : Nat}
    (h : first_index p l = some i) : i < l.length := by
  obtain ⟨⟨c, hc, _⟩, _⟩ := (first_index_eq_some_iff p l i).1 h
  exact (List.getElem?_eq_some_iff.1 hc).1

theorem pingconn_at_of_getElem? {s : State} {i : Nat} {c : pingconn_t}
    (h : s.pingconns[i]? = some c) : pingconn_at s i = c := by
  simp [pingconn_at, List.getD, h]


theorem modify_at_modify_at (f g : pingconn_t → pingconn_t) (l : List pingconn_t) (i : Nat) :
    modify_at g (modify_at f l i) i = modify_at (fun c => g (f c)) l i := by
  induction l generalizing i with
  | nil => rfl
  | cons c cs ih => cases i <;> simp [modify_at, ih]

theorem first_index_modify_at_self {p : pingconn_t → Bool} {f : pingconn_t → pingconn_t}
    {l : List pingconn_t} {i : Nat} (h : first_index p l = some i)
    (hf : ∀ c, l[i]? = some c → p (f c) = true) :
    first_index p (modify_at f l i) = some i := by
  obtain ⟨⟨c, hc, _⟩, hmin⟩ := (first_index_eq_some_iff p l i).1 h
  refine (first_index_eq_some_iff p _ i).2 ⟨⟨f c, ?_, hf c hc⟩, ?_⟩
  · simp [getElem?_modify_at, hc]
  · intro j hj c1 hj1
    rw [getElem?_modify_at_ne f l (Nat.ne_of_lt hj)] at hj1
    exact hmin j hj c1 hj1

theorem first_index_modify_at_ne {p : pingconn_t → Bool} {f : pingconn_t → pingconn_t}
    {l : List pingconn_t} {i k : Nat} (h : first_index p l = some i) (hk : k ≠ i)
    (hf : ∀ c, l[k]? = some c → p c = false → p (f c) = false) :
    first_index p (modify_at f l k) = some i := by
  obtain ⟨⟨c, hc, hpc⟩, hmin⟩ := (first_index_eq_some_iff p l i).1 h
  refine (first_index_eq_some_iff p _ i).2 ⟨⟨c, ?_, hpc⟩, ?_⟩
  · rw [getElem?_modify_at_ne f l (Ne.symm hk)]
    exact hc
  · intro j hj c1 hj1
    by_cases hjk : j = k
    · subst hjk
      rw [getElem?_modify_at_self] at hj1
      cases hl : l[j]? with
      | none => rw [hl] at hj1; simp at hj1
      | some c0 =>
        rw [hl] at hj1
        simp at hj1
        subst hj1
        exact hf c0 hl (hmin j hj c0 hl)
    · rw [getElem?_modify_at_ne f l hjk] at hj1
      exact hmin j hj c1 hj1

theorem first_index_modify_at_new {p : pingconn_t → Bool} {f : pingconn_t → pingconn_t}
    {l : List pingconn_t} {k : Nat} (h : first_index p l = none) (hk : k < l.length)
    (hf : ∀ c, l[k]? = some c → p (f c) = true) :
    first_index p (modify_at f l k) = some k := by
  have hnone := (first_index_eq_none_iff p l).1 h
  have hlk : l[k]? = some l[k] := List.getElem?_eq_getElem hk
  refine (first_index_eq_some_iff p _ k).2 ⟨⟨f l[k], ?_, hf _ hlk⟩, ?_⟩
  · simp [getElem?_modify_at, hlk]
  · intro j hj c1 hj1
    rw [getElem?_modify_at_ne f l (Nat.ne_of_lt hj)] at hj1
    exact hnone j c1 hj1

theorem first_index_modify_at_none {p : pingconn_t → Bool} {f : pingconn_t → pingconn_t}
    {l : List pingconn_t} {k : Nat} (h : first_index p l = none)
    (hf : ∀ c, l[k]? = some c → p (f c) = false) :
    first_index p (modify_at f l k) = none := by
  have hnone := (first_index_eq_none_iff p l).1 h
  refine (first_index_eq_none_iff p _).2 ?_
  intro j c1 hj1
  by_cases hjk : j = k
  · subst hjk
    rw [getElem?_modify_at_self] at hj1
    cases hl : l[j]? with
    | none => rw [hl] at hj1; simp at hj1
    | some c0 =>
      rw [hl] at hj1
      simp at hj1
      subst hj1
      exact hf c0 hl
  · rw [getElem?_modify_at_ne f l hjk] at hj1
    exact hnone j c1 hj1

/-- The slot `simple_udp_ping_send_ping` works on and what it does to it: the
slot found by `get_pingconn` is armed; otherwise the slot handed out by
`allocate_pingconn` is claimed and armed. -/
theorem send_ping_cases {s s1 : State} {addr : uip_ipaddr_t}
    (hs : simple_udp_ping_send_ping s addr = some s1) :
    (∃ i, get_pingconn s addr = some i ∧
        s1 = { pingconns := modify_at arm s.pingconns i, last := s.last }) ∨
    (∃ i, get_pingconn s addr = none ∧ first_free s = some i ∧
        s1 = { pingconns := modify_at (fun c => arm (claim addr c)) s.pingconns i,
               last := s.last }) ∨
    (get_pingconn s addr = none ∧ first_free s = none ∧ next_last s < MAX_DESTINATIONS s ∧
        s1 = { pingconns := modify_at (fun c => arm (claim addr c)) s.pingconns (next_last s),
               last := next_last s }) := by
  unfold simple_udp_ping_send_ping at hs
  cases hg : get_pingconn s addr with
  | some i =>
    rw [hg] at hs
    simp only [Option.some.injEq] at hs
    exact Or.inl ⟨i, rfl, hs.symm⟩
  | none =>
    rw [hg] at hs
    unfold allocate_pingconn at hs
    cases hf : first_free s with
    | some i =>
      rw [hf] at hs
      simp only [Option.some.injEq, modify_at_modify_at] at hs
      exact Or.inr (Or.inl ⟨i, rfl, rfl, hs.symm⟩)
    | none =>
      rw [hf] at hs
      by_cases hlt : next_last s < MAX_DESTINATIONS s
      · simp only [hlt, if_true, Option.some.injEq, modify_at_modify_at] at hs
        exact Or.inr (Or.inr ⟨rfl, rfl, hlt, hs.symm⟩)
      · simp [hlt] at hs

/-- A probe request goes through exactly when the address is tracked, or a slot
is free, or the next cursor position is inside the table. -/
theorem send_ping_isSome_iff (s : State) (addr : uip_ipaddr_t) :
    (∃ s1, simple_udp_ping_send_ping s addr = some s1) ↔
      (get_pingconn s addr ≠ none ∨ first_free s ≠ none ∨ next_last s < MAX_DESTINATIONS s) := by
  unfold simple_udp_ping_send_ping allocate_pingconn
  cases hg : get_pingconn s addr with
  | some i => simp
  | none =>
    cases hf : first_free s with
    | some i => simp
    | none =>
      by_cases hlt : next_last s < MAX_DESTINATIONS s
      · simp [hlt]
      · simp [hlt]

/-! ## The uniqueness invariant -/

theorem unique_hosts_last (l : List pingconn_t) (a b : Nat)
    (h : unique_hosts { pingconns := l, last := a }) : unique_hosts { pingconns := l, last := b } :=
  h

theorem unique_hosts_modify_at (f : pingconn_t → pingconn_t) (l : List pingconn_t) (k a b : Nat)
    (hf : ∀ c, l[k]? = some c → (f c).in_use = true →
      ∀ (j : Nat) (cj : pingconn_t), j ≠ k → l[j]? = some cj → cj.in_use = true → cj.host ≠ (f c).host)
    (h : unique_hosts { pingconns := l, last := a }) :
    unique_hosts { pingconns := modify_at f l k, last := b } := by
  intro i j ci cj hi hj ui uj hh
  simp only [getElem?_modify_at] at hi hj
  by_cases hik : i = k
  · by_cases hjk : j = k
    · rw [hik, hjk]
    · exfalso
      rw [if_pos hik] at hi
      rw [if_neg hjk] at hj
      rw [hik] at hi
      cases hlk : l[k]? with
      | none => rw [hlk] at hi; simp at hi
      | some c =>
        rw [hlk] at hi
        simp at hi
        subst hi
        exact hf c hlk ui j cj hjk hj uj hh.symm
  · by_cases hjk : j = k
    · exfalso
      rw [if_neg hik] at hi
      rw [if_pos hjk] at hj
      rw [hjk] at hj
      cases hlk : l[k]? with
      | none => rw [hlk] at hj; simp at hj
      | some c =>
        rw [hlk] at hj
        simp at hj
        subst hj
        exact hf c hlk uj i ci hik hi ui hh
    · rw [if_neg hik] at hi
      rw [if_neg hjk] at hj
      exact h i j ci cj hi hj ui uj hh

theorem unique_hosts_modify_flags (f : pingconn_t → pingconn_t) (l : List pingconn_t) (k a b : Nat)
    (hf : ∀ c, (f c).in_use = c.in_use ∧ (f c).host = c.host)
    (h : unique_hosts { pingconns := l, last := a }) :
    unique_hosts { pingconns := modify_at f l k, last := b } := by
  apply unique_hosts_modify_at f l k a b _ h
  intro c hc hu j cj hjk hj uj hh
  rw [(hf c).1] at hu
  rw [(hf c).2] at hh
  exact hjk (h j k cj c hj hc uj hu hh)

theorem get_pingconn_none_ne {s : State} {addr : uip_ipaddr_t} (h : get_pingconn s addr = none)
    (j : Nat) (c : pingconn_t) (hj : s.pingconns[j]? = some c) (hu : c.in_use = true) :
    c.host ≠ addr := by
  have := (first_index_eq_none_iff _ _).1 h j c hj
  intro hh
  simp [hu, hh] at this

theorem unique_hosts_claim (l : List pingconn_t) (addr : uip_ipaddr_t) (k a b : Nat)
    (hn : get_pingconn { pingconns := l, last := a } addr = none)
    (h : unique_hosts { pingconns := l, last := a }) :
    unique_hosts { pingconns := modify_at (claim addr) l k, last := b } := by
  apply unique_hosts_modify_at (claim addr) l k a b _ h
  intro c _ _ j cj _ hj uj
  exact get_pingconn_none_ne hn j cj hj uj

theorem unique_hosts_init (n : Nat) : unique_hosts (init n) := by
  intro i j ci cj hi _ ui _ _
  have hmem : ci ∈ List.replicate n zero_conn := List.getElem?_mem hi
  have := List.eq_of_mem_replicate hmem
  subst this
  simp [zero_conn] at ui

theorem unique_hosts_send_ping {s s1 : State} {addr : uip_ipaddr_t}
    (hs : simple_udp_ping_send_ping s addr = some s1) (h : unique_hosts s) : unique_hosts s1 := by
  unfold simple_udp_ping_send_ping at hs
  cases hg : get_pingconn s addr with
  | some i =>
    rw [hg] at hs
    simp only [Option.some.injEq] at hs
    subst hs
    exact unique_hosts_modify_flags arm s.pingconns i s.last s.last (fun c => ⟨rfl, rfl⟩) h
  | none =>
    rw [hg] at hs
    unfold allocate_pingconn at hs
    cases hf : first_free s with
    | some i =>
      rw [hf] at hs
      simp only [Option.some.injEq] at hs
      subst hs
      exact unique_hosts_modify_flags arm _ i s.last s.last (fun c => ⟨rfl, rfl⟩)
        (unique_hosts_claim s.pingconns addr i s.last s.last hg h)
    | none =>
      rw [hf] at hs
      by_cases hlt : next_last s < MAX_DESTINATIONS s
      · simp only [hlt, if_true, Option.some.injEq] at hs
        subst hs
        exact unique_hosts_modify_flags arm _ _ s.last _ (fun c => ⟨rfl, rfl⟩)
          (unique_hosts_claim s.pingconns addr _ s.last s.last hg h)
      · simp [hlt] at hs

theorem unique_hosts_step {P : Platform} {s s1 : State} {e : Event}
    (hs : step P s e = some s1) (h : unique_hosts s) : unique_hosts s1 := by
  cases e with
  | send_ping a => exact unique_hosts_send_ping hs h
  | clear_conn a =>
    simp only [step, Option.some.injEq] at hs
    subst hs
    unfold simple_udp_ping_clear_conn
    cases get_pingconn s a with
    | none => exact h
    | some i => exact unique_hosts_modify_flags disarm _ i s.last s.last (fun c => ⟨rfl, rfl⟩) h
  | free a =>
    simp only [step, Option.some.injEq] at hs
    subst hs
    unfold free_pingconn
    cases get_pingconn s a with
    | none => exact h
    | some i =>
      apply unique_hosts_modify_at release _ i s.last s.last _ h
      intro c _ hu
      simp [release] at hu
  | tick f c =>
    simp only [step, Option.some.injEq] at hs
    subst hs
    unfold simple_udp_ping_process
    cases first_index (fun c => c.in_use && c.waiting) s.pingconns with
    | none => exact h
    | some i => exact unique_hosts_modify_flags (on_send f c) _ i s.last s.last (fun c => ⟨rfl, rfl⟩) h
  | recv a d c1 c2 f =>
    simp only [step, Option.some.injEq] at hs
    subst hs
    unfold receiver
    split
    · exact h
    · split
      · cases get_pingconn s a with
        | none => exact h
        | some i =>
          exact unique_hosts_modify_flags (on_echo P c1 c2 f) _ i s.last s.last (fun c => ⟨rfl, rfl⟩) h
      · exact h

theorem unique_hosts_run {P : Platform} {s s1 : State} {es : List Event}
    (hs : run P s es = some s1) (h : unique_hosts s) : unique_hosts s1 := by
  induction es generalizing s with
  | nil =>
    simp only [run, Option.some.injEq] at hs
    subst hs
    exact h
  | cons e es ih =>
    simp only [run] at hs
    cases he : step P s e with
    | none => rw [he] at hs; cases hs
    | some s2 =>
      rw [he] at hs
      exact ih hs (unique_hosts_step he h)

/-! ## Outstanding probes -/

theorem has_sent_of_outstanding_at {s : State} {addr : uip_ipaddr_t} {i : Nat}
    (h : outstanding_at s addr i) : simple_udp_ping_has_sent s addr = 1 := by
  obtain ⟨hg, c, hc, hw⟩ := h
  unfold simple_udp_ping_has_sent
  rw [hg]
  simp only [pingconn_at_of_getElem? hc]
  rcases hw with hw | hw
  · simp [hw]
  · cases hcw : c.waiting <;> simp [hw]

theorem get_pingconn_slot {s : State} {addr : uip_ipaddr_t} {i : Nat}
    (h : get_pingconn s addr = some i) :
    ∃ c, s.pingconns[i]? = some c ∧ c.in_use = true ∧ c.host = addr := by
  obtain ⟨⟨c, hc, hp⟩, _⟩ := (first_index_eq_some_iff _ _ i).1 h
  simp at hp
  exact ⟨c, hc, hp.1, hp.2⟩

theorem get_pingconn_inj {s : State} {A B : uip_ipaddr_t} {i : Nat}
    (hA : get_pingconn s A = some i) (hB : get_pingconn s B = some i) : A = B := by
  obtain ⟨c, hc, _, h1⟩ := get_pingconn_slot hA
  obtain ⟨c1, hc1, _, h2⟩ := get_pingconn_slot hB
  rw [hc] at hc1
  cases hc1
  rw [← h1, ← h2]

theorem outstanding_at_modify_self {s : State} {A : uip_ipaddr_t} {i b : Nat}
    {f : pingconn_t → pingconn_t} (h : outstanding_at s A i)
    (hf : ∀ c, (f c).in_use = c.in_use ∧ (f c).host = c.host)
    (hw : ∀ c, c.waiting = true ∨ c.sent = true → (f c).waiting = true ∨ (f c).sent = true) :
    outstanding_at { pingconns := modify_at f s.pingconns i, last := b } A i := by
  obtain ⟨hg, c, hc, hcw⟩ := h
  refine ⟨?_, f c, ?_, hw c hcw⟩
  · apply first_index_modify_at_self hg
    intro c1 hc1
    obtain ⟨c2, hc2, hu, hh⟩ := get_pingconn_slot hg
    rw [hc1] at hc2
    cases hc2
    simp [(hf c1).1, (hf c1).2, hu, hh]
  · simp [getElem?_modify_at, hc]

theorem outstanding_at_modify_ne {s : State} {A : uip_ipaddr_t} {i k b : Nat}
    {f : pingconn_t → pingconn_t} (h : outstanding_at s A i) (hk : k ≠ i)
    (hf : ∀ c, (c.in_use && decide (c.host = A)) = false →
      ((f c).in_use && decide ((f c).host = A)) = false) :
    outstanding_at { pingconns := modify_at f s.pingconns k, last := b } A i := by
  obtain ⟨hg, c, hc, hcw⟩ := h
  refine ⟨first_index_modify_at_ne hg hk (fun c1 _ h1 => hf c1 h1), c, ?_, hcw⟩
  show (modify_at f s.pingconns k)[i]? = some c
  rw [getElem?_modify_at_ne f _ (Ne.symm hk)]
  exact hc

theorem outstanding_at_modify_flags {s : State} {A : uip_ipaddr_t} {i k b : Nat}
    {f : pingconn_t → pingconn_t} (h : outstanding_at s A i)
    (hf : ∀ c, (f c).in_use = c.in_use ∧ (f c).host = c.host)
    (hw : k = i → ∀ c, c.waiting = true ∨ c.sent = true → (f c).waiting = true ∨ (f c).sent = true) :
    outstanding_at { pingconns := modify_at f s.pingconns k, last := b } A i := by
  by_cases hk : k = i
  · subst hk
    exact outstanding_at_modify_self h hf (hw rfl)
  · apply outstanding_at_modify_ne h hk
    intro c hc
    rw [(hf c).1, (hf c).2]
    exact hc

theorem outstanding_at_send_ping {s s1 : State} {A : uip_ipaddr_t}
    (hs : simple_udp_ping_send_ping s A = some s1) : ∃ i, outstanding_at s1 A i := by
  have harm : ∀ c, ((arm (claim A c)).in_use && decide ((arm (claim A c)).host = A)) = true := by
    intro c; simp [arm, claim]
  rcases send_ping_cases hs with ⟨i, hg, rfl⟩ | ⟨i, hg, hf, rfl⟩ | ⟨hg, hf, hlt, rfl⟩
  · obtain ⟨c, hc, hu, hh⟩ := get_pingconn_slot hg
    refine ⟨i, first_index_modify_at_self hg ?_, arm c, ?_, Or.inl rfl⟩
    · intro c1 hc1
      rw [hc] at hc1
      cases hc1
      simp [arm, hu, hh]
    · simp [getElem?_modify_at, hc]
  · have hi : i < s.pingconns.length := first_index_lt_length hf
    refine ⟨i, first_index_modify_at_new hg hi (fun c _ => harm c), arm (claim A s.pingconns[i]), ?_,
      Or.inl rfl⟩
    simp [getElem?_modify_at, List.getElem?_eq_getElem hi]
  · have hi : next_last s < s.pingconns.length := hlt
    refine ⟨next_last s, first_index_modify_at_new hg hi (fun c _ => harm c),
      arm (claim A s.pingconns[next_last s]), ?_, Or.inl rfl⟩
    simp [getElem?_modify_at, List.getElem?_eq_getElem hi]

theorem outstanding_at_step {P : Platform} {s s1 : State} {A : uip_ipaddr_t} {i : Nat} {e : Event}
    (h : outstanding_at s A i) (hok : stays_ok A s e = true) (hs : step P s e = some s1) :
    outstanding_at s1 A i := by
  have hgA := h.1
  cases e with
  | send_ping B =>
    have hne : ∀ c : pingconn_t, B ≠ A → (c.in_use && decide (c.host = A)) = false →
        ((arm (claim B c)).in_use && decide ((arm (claim B c)).host = A)) = false := by
      intro c hBA _
      simp [arm, claim, hBA]
    rcases send_ping_cases hs with ⟨k, hg, rfl⟩ | ⟨k, hg, hf, rfl⟩ | ⟨hg, hf, hlt, rfl⟩
    · exact outstanding_at_modify_flags h (fun c => ⟨rfl, rfl⟩) (fun _ c _ => Or.inl rfl)
    · have hBA : B ≠ A := by
        intro hBA
        rw [hBA, hgA] at hg
        cases hg
      have hki : k ≠ i := by
        intro hki
        obtain ⟨⟨c, hc, hp⟩, _⟩ := (first_index_eq_some_iff _ _ k).1 hf
        obtain ⟨c1, hc1, hu, _⟩ := get_pingconn_slot hgA
        rw [hki, hc1] at hc
        cases hc
        simp [hu] at hp
      exact outstanding_at_modify_ne h hki (fun c hc => hne c hBA hc)
    · have hBA : B ≠ A := by
        intro hBA
        rw [hBA, hgA] at hg
        cases hg
      have hki : next_last s ≠ i := by
        intro hki
        simp [stays_ok, evicts, is_echo_from, hg, hf, hgA, hki] at hok
      exact outstanding_at_modify_ne h hki (fun c hc => hne c hBA hc)
  | clear_conn B =>
    simp only [step, Option.some.injEq] at hs
    subst hs
    unfold simple_udp_ping_clear_conn
    cases hg : get_pingconn s B with
    | none => exact h
    | some k =>
      have hBA : B ≠ A := by
        intro hBA
        simp [stays_ok, hBA] at hok
      have hki : k ≠ i := by
        intro hki
        rw [hki] at hg
        exact hBA (get_pingconn_inj hg hgA)
      exact outstanding_at_modify_ne h hki (fun c hc => hc)
  | free B =>
    simp only [step, Option.some.injEq] at hs
    subst hs
    unfold free_pingconn
    cases hg : get_pingconn s B with
    | none => exact h
    | some k =>
      have hBA : B ≠ A := by
        intro hBA
        simp [stays_ok, hBA] at hok
      have hki : k ≠ i := by
        intro hki
        rw [hki] at hg
        exact hBA (get_pingconn_inj hg hgA)
      exact outstanding_at_modify_ne h hki (fun c _ => by simp [release])
  | tick f c =>
    simp only [step, Option.some.injEq] at hs
    subst hs
    unfold simple_udp_ping_process
    cases first_index (fun c => c.in_use && c.waiting) s.pingconns with
    | none => exact h
    | some k =>
      exact outstanding_at_modify_flags h (fun c => ⟨rfl, rfl⟩) (fun _ c _ => Or.inr rfl)
  | recv B d c1 c2 f =>
    simp only [step, Option.some.injEq] at hs
    subst hs
    unfold receiver
    split
    · exact h
    · split
      · rename_i hecho
        cases hg : get_pingconn s B with
        | none => exact h
        | some k =>
          have hBA : B ≠ A := by
            intro hBA
            simp [stays_ok, is_echo_from, hBA, hecho] at hok
          have hki : k ≠ i := by
            intro hki
            rw [hki] at hg
            exact hBA (get_pingconn_inj hg hgA)
          exact outstanding_at_modify_ne h hki (fun c hc => hc)
      · exact h

theorem outstanding_at_run {P : Platform} {A : uip_ipaddr_t} {i : Nat} {es : List Event} {s : State}
    (h : outstanding_at s A i) (hok : all_ok (stays_ok A) P s es = true) :
    ∃ s2, run P s es = some s2 ∧ outstanding_at s2 A i := by
  induction es generalizing s with
  | nil => exact ⟨s, rfl, h⟩
  | cons e es ih =>
    simp only [all_ok, Bool.and_eq_true] at hok
    obtain ⟨hok1, hok2⟩ := hok
    cases hs : step P s e with
    | none => rw [hs] at hok2; cases hok2
    | some s1 =>
      rw [hs] at hok2
      obtain ⟨s2, hr, ho⟩ := ih (outstanding_at_step h hok1 hs) hok2
      exact ⟨s2, by simp only [run, hs]; exact hr, ho⟩

/-! ## Conversions -/

theorem to_int_of_lt (P : Platform) (x : Nat) (hP : 32 ≤ P.int_bits) (hx : x < 2147483648) :
    to_int P x = (x : Int) := by
  have h1 : (2 : Nat) ^ 31 ≤ 2 ^ (P.int_bits - 1) := Nat.pow_le_pow_right (by decide) (by omega)
  have h2 : (2 : Nat) ^ (P.int_bits - 1) < 2 ^ P.int_bits :=
    Nat.pow_lt_pow_right (by decide) (by omega)
  have h3 : (2 : Nat) ^ 31 = 2147483648 := by norm_num
  have hmod : x % 2 ^ P.int_bits = x := Nat.mod_eq_of_lt (by omega)
  unfold to_int
  rw [hmod, if_pos (by omega)]

theorem ms_lt_of_two_le (y R : Nat) (hR : 2 ≤ R) : (y % 4294967296) / R < 2147483648 := by
  have h1 : (y % 4294967296) / R ≤ (y % 4294967296) / 2 :=
    Nat.div_le_div_left hR (by decide)
  have h2 : y % 4294967296 < 4294967296 := Nat.mod_lt _ (by decide)
  omega

theorem to_int_ne_neg_one (P : Platform) (x : Nat) (hP : 32 ≤ P.int_bits) (hx : x < 4294967295) :
    to_int P x ≠ -1 := by
  have h1 : (2 : Nat) ^ 32 ≤ 2 ^ P.int_bits := Nat.pow_le_pow_right (by decide) hP
  have h3 : (2 : Nat) ^ 32 = 4294967296 := by norm_num
  have hmod : x % 2 ^ P.int_bits = x := Nat.mod_eq_of_lt (by omega)
  unfold to_int
  rw [hmod]
  split
  · omega
  · omega

theorem ms_ne_max (d R : Nat) : ((1000 * d) % 4294967296) / R < 4294967295 := by
  have h2 : (1000 * d) % 4294967296 < 4294967296 := Nat.mod_lt _ (by decide)
  rcases Nat.lt_or_ge R 2 with hR | hR
  · rcases Nat.eq_zero_or_pos R with h0 | h0
    · subst h0
      simp
    · have h1 : R = 1 := by omega
      subst h1
      rw [Nat.div_one]
      omega
  · have := ms_lt_of_two_le (1000 * d) R hR
    omega

theorem to_uint32_natCast (n : Nat) : to_uint32 (n : Int) = n % 4294967296 := by
  unfold to_uint32
  omega

theorem c_sub_of_le (P : Platform) (w a b : Nat) (hba : b ≤ a) (ha : a < 2 ^ w) :
    c_sub P w a b = ((a - b : Nat) : Int) := by
  unfold c_sub
  split
  · omega
  · have h0 : (0 : Int) ≤ (a : Int) - (b : Int) := by omega
    have h1 : (a : Int) - (b : Int) < ((2 ^ w : Nat) : Int) := by omega
    rw [Int.emod_eq_of_lt h0 h1]
    omega

theorem to_int_of_lt_half (P : Platform) (x : Nat) (hx : x < 2 ^ (P.int_bits - 1)) :
    to_int P x = (x : Int) := by
  have h1 : (2 : Nat) ^ (P.int_bits - 1) ≤ 2 ^ P.int_bits :=
    Nat.pow_le_pow_right (by decide) (Nat.sub_le _ _)
  have hmod : x % 2 ^ P.int_bits = x := Nat.mod_eq_of_lt (by omega)
  unfold to_int
  rw [hmod, if_pos hx]

/-- The delay `on_echo` stores, by the age of the ping on the coarse clock. -/
theorem echo_delay_value (P : Platform) (c : pingconn_t) (T_c1 T_f1 : Nat)
    (hc : c.echo_time2 ≤ T_c1) (hcw : T_c1 < 2 ^ P.clock_bits) :
    (P.CLOCK_SECOND < T_c1 - c.echo_time2 →
      (T_c1 - c.echo_time2) * P.RTIMER_SECOND < 4294967296 →
      echo_delay P c T_c1 T_c1 T_f1 =
        (T_c1 - c.echo_time2) * P.RTIMER_SECOND / P.CLOCK_SECOND) ∧
    (T_c1 - c.echo_time2 ≤ P.CLOCK_SECOND → c.echo_time ≤ T_f1 → T_f1 < 2 ^ P.rtimer_bits →
      T_f1 - c.echo_time < 4294967296 →
      echo_delay P c T_c1 T_c1 T_f1 = T_f1 - c.echo_time) ∧
    (T_c1 - c.echo_time2 ≤ P.CLOCK_SECOND → T_f1 < c.echo_time → c.echo_time < 2 ^ P.rtimer_bits →
      P.int_bits ≤ P.rtimer_bits → P.rtimer_bits ≤ 32 →
      echo_delay P c T_c1 T_c1 T_f1 = T_f1 + 2 ^ P.rtimer_bits - c.echo_time) := by
  have hsub := c_sub_of_le P P.clock_bits T_c1 c.echo_time2 hc hcw
  refine ⟨?_, ?_, ?_⟩
  · intro hgt hfit
    have hcond : c_sub P P.clock_bits T_c1 c.echo_time2 > (P.CLOCK_SECOND : Int) := by
      rw [hsub]
      exact Int.ofNat_lt.2 hgt
    unfold echo_delay
    rw [if_pos hcond, hsub, to_uint32_natCast]
    rcases Nat.eq_zero_or_pos P.RTIMER_SECOND with h0 | h0
    · simp [h0]
    · have hle : T_c1 - c.echo_time2 ≤ (T_c1 - c.echo_time2) * P.RTIMER_SECOND :=
        Nat.le_mul_of_pos_right _ h0
      have hlt : T_c1 - c.echo_time2 < 4294967296 := by omega
      rw [Nat.mod_eq_of_lt hlt, Nat.mod_eq_of_lt hfit]
  · intro hle hf hfw hfit
    have hcond : ¬ c_sub P P.clock_bits T_c1 c.echo_time2 > (P.CLOCK_SECOND : Int) := by
      rw [hsub]
      exact fun h => absurd (Int.ofNat_lt.1 h) (by omega)
    unfold echo_delay
    rw [if_neg hcond, c_sub_of_le P P.rtimer_bits T_f1 c.echo_time hf hfw, to_uint32_natCast]
    exact Nat.mod_eq_of_lt hfit
  · intro hle hf hfw hib hw32
    have hcond : ¬ c_sub P P.clock_bits T_c1 c.echo_time2 > (P.CLOCK_SECOND : Int) := by
      rw [hsub]
      exact fun h => absurd (Int.ofNat_lt.1 h) (by omega)
    have hpow : (2 : Nat) ^ P.rtimer_bits ≤ 2 ^ 32 := Nat.pow_le_pow_right (by decide) hw32
    have h32 : (2 : Nat) ^ 32 = 4294967296 := by norm_num
    have hwrap : c_sub P P.rtimer_bits T_f1 c.echo_time =
        ((T_f1 + 2 ^ P.rtimer_bits - c.echo_time : Nat) : Int) := by
      unfold c_sub
      rw [if_neg (by omega)]
      have e1 : (T_f1 : Int) - (c.echo_time : Int) =
          ((T_f1 + 2 ^ P.rtimer_bits - c.echo_time : Nat) : Int) +
            (-1) * ((2 ^ P.rtimer_bits : Nat) : Int) := by omega
      rw [e1, Int.add_mul_emod_self]
      exact Int.emod_eq_of_lt (by omega) (by omega)
    unfold echo_delay
    rw [if_neg hcond, hwrap, to_uint32_natCast]
    exact Nat.mod_eq_of_lt (by omega)

theorem pingconn_at_modify_at_self (f : pingconn_t → pingconn_t) (l : List pingconn_t)
    (L L1 i : Nat) (hi : i < l.length) :
    pingconn_at ⟨modify_at f l i, L⟩ i = f (pingconn_at ⟨l, L1⟩ i) := by
  have h1 : l[i]? = some l[i] := List.getElem?_eq_getElem hi
  have h2 : (modify_at f l i)[i]? = some (f l[i]) := by simp [getElem?_modify_at_self, h1]
  rw [pingconn_at_of_getElem? (s := ⟨modify_at f l i, L⟩) h2,
    pingconn_at_of_getElem? (s := ⟨l, L1⟩) h1]

/-! ## One probe from request to reply -/

/-- The slot a successful probe request leaves armed: it is the slot now found
for the address, it lies inside the table, it is in use, waiting and not replied,
and every other slot is as before. -/
theorem send_ping_result {s s1 : State} {A : uip_ipaddr_t}
    (hs : simple_udp_ping_send_ping s A = some s1) :
    ∃ k c, get_pingconn s1 A = some k ∧ s1.pingconns[k]? = some c ∧
      c.in_use = true ∧ c.host = A ∧ c.waiting = true ∧ c.replied = false ∧
      (get_pingconn s A = some k ∨ get_pingconn s A = none) ∧
      ∀ j : Nat, j ≠ k → s1.pingconns[j]? = s.pingconns[j]? := by
  have harm : ∀ c, ((arm (claim A c)).in_use && decide ((arm (claim A c)).host = A)) = true := by
    intro c; simp [arm, claim]
  rcases send_ping_cases hs with ⟨i, hg, rfl⟩ | ⟨i, hg, hf, rfl⟩ | ⟨hg, hf, hlt, rfl⟩
  · obtain ⟨c, hc, hu, hh⟩ := get_pingconn_slot hg
    refine ⟨i, arm c, first_index_modify_at_self hg ?_, ?_, hu, hh, rfl, rfl, Or.inl hg, ?_⟩
    · intro c1 hc1
      rw [hc] at hc1
      cases hc1
      simp [arm, hu, hh]
    · simp [getElem?_modify_at, hc]
    · intro j hj
      exact getElem?_modify_at_ne _ _ hj
  · have hi : i < s.pingconns.length := first_index_lt_length hf
    refine ⟨i, arm (claim A s.pingconns[i]), first_index_modify_at_new hg hi (fun c _ => harm c),
      ?_, rfl, rfl, rfl, rfl, Or.inr hg, ?_⟩
    · simp [getElem?_modify_at, List.getElem?_eq_getElem hi]
    · intro j hj
      exact getElem?_modify_at_ne _ _ hj
  · have hi : next_last s < s.pingconns.length := hlt
    refine ⟨next_last s, arm (claim A s.pingconns[next_last s]),
      first_index_modify_at_new hg hi (fun c _ => harm c), ?_, rfl, rfl, rfl, rfl, Or.inr hg, ?_⟩
    · simp [getElem?_modify_at, List.getElem?_eq_getElem hi]
    · intro j hj
      exact getElem?_modify_at_ne _ _ hj

/-- A tick in a state whose only waiting in-use slot is slot `k`: one "ping" goes
to the host of slot `k`, and slot `k` gets the assignments of `on_send`. -/
theorem process_of_only_waiting {s : State} {k : Nat} {c : pingconn_t} (now_f now_c : Nat)
    (hc : s.pingconns[k]? = some c) (hu : c.in_use = true) (hw : c.waiting = true)
    (honly : ∀ (j : Nat) (cj : pingconn_t), s.pingconns[j]? = some cj → cj.in_use = true →
      cj.waiting = true → j = k) :
    simple_udp_ping_process s now_f now_c =
      ({ pingconns := modify_at (on_send now_f now_c) s.pingconns k, last := s.last },
       [{ data := PING, dest := c.host }]) := by
  have hfi : first_index (fun c => c.in_use && c.waiting) s.pingconns = some k := by
    refine (first_index_eq_some_iff _ _ k).2 ⟨⟨c, hc, by simp [hu, hw]⟩, ?_⟩
    intro j hj cj hcj
    cases hju : cj.in_use with
    | false => rfl
    | true =>
      cases hjw : cj.waiting with
      | false => rfl
      | true => exact absurd (honly j cj hcj hju hjw) (Nat.ne_of_lt hj)
  unfold simple_udp_ping_process
  rw [hfi]
  simp only [pingconn_at_of_getElem? hc]

/-- An inbound "echo" from a tracked address: nothing is sent and the slot of the
address gets the assignments of `on_echo`. -/
theorem receiver_echo_tracked (P : Platform) {s : State} {A : uip_ipaddr_t} {k : Nat}
    (now_c1 now_c2 now_f : Nat) (hg : get_pingconn s A = some k) :
    receiver P s A ECHO now_c1 now_c2 now_f =
      ({ pingconns := modify_at (on_echo P now_c1 now_c2 now_f) s.pingconns k, last := s.last },
       []) := by
  unfold receiver
  rw [if_neg (by decide), if_pos (by decide), hg]


/-! ## Filling the empty table -/

theorem first_index_append_of_all_false (p : pingconn_t → Bool) (pre rest : List pingconn_t)
    (h : ∀ c ∈ pre, p c = false) :
    first_index p (pre ++ rest) = (first_index p rest).map (· + pre.length) := by
  induction pre with
  | nil =>
    simp only [List.nil_append, List.length_nil, Nat.add_zero]
    cases first_index p rest <;> rfl
  | cons c cs ih =>
    have hc : p c = false := h c (List.mem_cons_self c cs)
    have ih1 := ih (fun c1 hc1 => h c1 (List.mem_cons_of_mem c hc1))
    have hstep : first_index p (c :: (cs ++ rest)) = (first_index p (cs ++ rest)).map (· + 1) := by
      simp only [first_index, hc, Bool.false_eq_true, if_false]
    rw [List.cons_append, hstep, ih1]
    cases first_index p rest <;> simp [Nat.add_assoc]

theorem first_index_eq_none_of_forall (p : pingconn_t → Bool) (l : List pingconn_t)
    (h : ∀ c ∈ l, p c = false) : first_index p l = none :=
  (first_index_eq_none_iff p l).2 (fun _ c hj => h c (List.getElem?_mem hj))

theorem modify_at_append_length (f : pingconn_t → pingconn_t) (pre : List pingconn_t)
    (c : pingconn_t) (rest : List pingconn_t) :
    modify_at f (pre ++ c :: rest) pre.length = pre ++ f c :: rest := by
  induction pre with
  | nil => rfl
  | cons c1 cs ih => simp [modify_at, ih]

theorem run_append (P : Platform) (s : State) (es1 es2 : List Event) :
    run P s (es1 ++ es2) = (run P s es1).bind (fun s1 => run P s1 es2) := by
  induction es1 generalizing s with
  | nil => rfl
  | cons e es ih =>
    simp only [List.cons_append, run]
    cases step P s e with
    | none => rfl
    | some s1 => exact ih s1

/-- A probe request for an untracked address on a table whose in-use slots come
first and whose remaining slots are zero claims the first zero slot. -/
theorem send_ping_fill (pre : List pingconn_t) (m L : Nat) (a : uip_ipaddr_t)
    (hpre : ∀ c ∈ pre, c.in_use = true ∧ c.host ≠ a) :
    simple_udp_ping_send_ping ⟨pre ++ List.replicate (m + 1) zero_conn, L⟩ a =
      some ⟨pre ++ armed_slot a :: List.replicate m zero_conn, L⟩ := by
  have hg : get_pingconn ⟨pre ++ List.replicate (m + 1) zero_conn, L⟩ a = none := by
    apply first_index_eq_none_of_forall
    intro c hc
    rcases List.mem_append.1 hc with h1 | h1
    · simp [(hpre c h1).2]
    · rw [List.eq_of_mem_replicate h1]
      simp [zero_conn]
  have hf : first_free ⟨pre ++ List.replicate (m + 1) zero_conn, L⟩ = some pre.length := by
    unfold first_free
    rw [first_index_append_of_all_false _ _ _ (fun c hc => by simp [(hpre c hc).1])]
    simp [List.replicate_succ, first_index, zero_conn]
  unfold simple_udp_ping_send_ping allocate_pingconn
  rw [hg, hf]
  simp only [List.replicate_succ, modify_at_append_length, armed_slot]

/-- Probe requests for pairwise distinct untracked addresses fill the zero slots
in order. -/
theorem run_fill (P : Platform) (As : List uip_ipaddr_t) (pre : List pingconn_t) (m L : Nat)
    (hnd : As.Nodup) (hpre : ∀ c ∈ pre, c.in_use = true ∧ c.host ∉ As) :
    run P ⟨pre ++ List.replicate (As.length + m) zero_conn, L⟩ (As.map Event.send_ping) =
      some ⟨pre ++ As.map armed_slot ++ List.replicate m zero_conn, L⟩ := by
  induction As generalizing pre with
  | nil => simp [run]
  | cons a As ih =>
    have hlen : (a :: As).length + m = (As.length + m) + 1 := by simp; omega
    have h1 := send_ping_fill pre (As.length + m) L a
      (fun c hc => ⟨(hpre c hc).1, fun h => (hpre c hc).2 (by simp [h])⟩)
    have hnd2 := List.nodup_cons.1 hnd
    have h2 := ih (pre ++ [armed_slot a]) hnd2.2 (by
      intro c hc
      rcases List.mem_append.1 hc with h3 | h3
      · exact ⟨(hpre c h3).1, fun h => (hpre c h3).2 (List.mem_cons_of_mem a h)⟩
      · have : c = armed_slot a := by simpa using h3
        subst this
        exact ⟨rfl, hnd2.1⟩)
    rw [hlen]
    simp only [List.map_cons, run, step, h1]
    simpa using h2

/-- On a table in which every slot is waiting, a tracked address has an
outstanding probe. -/
theorem has_sent_of_all_waiting (l : List pingconn_t) (L : Nat) (B : uip_ipaddr_t)
    (hw : ∀ c ∈ l, c.waiting = true) (hB : ∃ c ∈ l, c.in_use = true ∧ c.host = B) :
    simple_udp_ping_has_sent ⟨l, L⟩ B = 1 := by
  cases hg : get_pingconn ⟨l, L⟩ B with
  | none =>
    exfalso
    obtain ⟨c, hc, hu, hh⟩ := hB
    obtain ⟨j, hj⟩ := List.mem_iff_getElem?.1 hc
    exact get_pingconn_none_ne hg j c hj hu hh
  | some i =>
    obtain ⟨c, hc, _, _⟩ := get_pingconn_slot hg
    unfold simple_udp_ping_has_sent
    rw [hg]
    simp only [pingconn_at_of_getElem? hc]
    simp [hw c (List.getElem?_mem hc)]

/-- On a table filled by requests for `A1, As` with the cursor still at
`MAX_DESTINATIONS`, a request for an untracked address overwrites slot 0. -/
theorem send_ping_first_eviction (A1 C : uip_ipaddr_t) (As : List uip_ipaddr_t)
    (hC : C ≠ A1 ∧ C ∉ As) :
    simple_udp_ping_send_ping ⟨armed_slot A1 :: As.map armed_slot, As.length + 1⟩ C =
      some ⟨armed_slot C :: As.map armed_slot, 0⟩ := by
  have hall : ∀ c ∈ armed_slot A1 :: As.map armed_slot, c.in_use = true ∧ c.host ≠ C := by
    intro c hc
    rcases List.mem_cons.1 hc with h1 | h1
    · subst h1
      exact ⟨rfl, fun h => hC.1 h.symm⟩
    · obtain ⟨a, ha, rfl⟩ := List.mem_map.1 h1
      exact ⟨rfl, fun h => hC.2 (by rw [← h]; exact ha)⟩
  have hg : get_pingconn ⟨armed_slot A1 :: As.map armed_slot, As.length + 1⟩ C = none :=
    first_index_eq_none_of_forall _ _ (fun c hc => by simp [(hall c hc).2])
  have hf : first_free ⟨armed_slot A1 :: As.map armed_slot, As.length + 1⟩ = none :=
    first_index_eq_none_of_forall _ _ (fun c hc => by simp [(hall c hc).1])
  have hn : next_last ⟨armed_slot A1 :: As.map armed_slot, As.length + 1⟩ = 0 := by
    simp [next_last, MAX_DESTINATIONS]
  unfold simple_udp_ping_send_ping allocate_pingconn
  rw [hg, hf, hn]
  simp [MAX_DESTINATIONS, modify_at, armed_slot, arm, claim]

/-! ## Queries and flag updates -/

theorem first_index_modify_at_congr {p : pingconn_t → Bool} {f : pingconn_t → pingconn_t}
    {l : List pingconn_t} {k : Nat} (hf : ∀ c, l[k]? = some c → p (f c) = p c) :
    first_index p (modify_at f l k) = first_index p l := by
  cases h : first_index p l with
  | none =>
    apply first_index_modify_at_none h
    intro c hc
    rw [hf c hc]
    exact (first_index_eq_none_iff p l).1 h k c hc
  | some i =>
    by_cases hk : k = i
    · subst hk
      apply first_index_modify_at_self h
      intro c hc
      rw [hf c hc]
      obtain ⟨⟨c1, hc1, hp⟩, _⟩ := (first_index_eq_some_iff p l k).1 h
      rw [hc] at hc1
      cases hc1
      exact hp
    · apply first_index_modify_at_ne h hk
      intro c hc hpc
      rw [hf c hc]
      exact hpc

theorem get_pingconn_modify_flags (f : pingconn_t → pingconn_t) (s : State) (k L : Nat)
    (B : uip_ipaddr_t) (hf : ∀ c, (f c).in_use = c.in_use ∧ (f c).host = c.host) :
    get_pingconn ⟨modify_at f s.pingconns k, L⟩ B = get_pingconn s B := by
  apply first_index_modify_at_congr
  intro c _
  simp only [(hf c).1, (hf c).2]

theorem has_reply_of_get {s : State} {A : uip_ipaddr_t} {i : Nat}
    (hg : get_pingconn s A = some i) :
    simple_udp_ping_has_reply s A = if (pingconn_at s i).replied = true then 1 else 0 := by
  unfold simple_udp_ping_has_reply
  rw [hg]
  cases h : (pingconn_at s i).replied <;> simp [h]

theorem has_sent_of_get {s : State} {A : uip_ipaddr_t} {i : Nat}
    (hg : get_pingconn s A = some i) :
    simple_udp_ping_has_sent s A =
      if (pingconn_at s i).waiting = true ∨ (pingconn_at s i).sent = true then 1 else 0 := by
  unfold simple_udp_ping_has_sent
  rw [hg]
  cases h1 : (pingconn_at s i).waiting <;> cases h2 : (pingconn_at s i).sent <;> simp [h1, h2]

theorem mem_modify_at {f : pingconn_t → pingconn_t} {l : List pingconn_t} {k : Nat}
    {c1 : pingconn_t} (h : c1 ∈ modify_at f l k) : c1 ∈ l ∨ ∃ c ∈ l, c1 = f c := by
  obtain ⟨j, hj⟩ := List.mem_iff_getElem?.1 h
  rw [getElem?_modify_at] at hj
  by_cases hjk : j = k
  · rw [if_pos hjk] at hj
    cases hl : l[j]? with
    | none => rw [hl] at hj; simp at hj
    | some c =>
      rw [hl] at hj
      simp at hj
      exact Or.inr ⟨c, List.getElem?_mem hl, hj.symm⟩
  · rw [if_neg hjk] at hj
    exact Or.inl (List.getElem?_mem hj)

theorem no_sent_replied_modify_at (f : pingconn_t → pingconn_t) (l : List pingconn_t)
    (k a b : Nat) (hf : ∀ c, ¬ (c.sent = true ∧ c.replied = true) →
      ¬ ((f c).sent = true ∧ (f c).replied = true))
    (h : no_sent_replied ⟨l, a⟩) : no_sent_replied ⟨modify_at f l k, b⟩ := by
  intro c1 hc1
  rcases mem_modify_at hc1 with h1 | ⟨c, hc, rfl⟩
  · exact h c1 h1
  · exact hf c (h c hc)

theorem no_sent_replied_init (n : Nat) : no_sent_replied (init n) := by
  intro c hc
  have hmem : c ∈ List.replicate n zero_conn := hc
  rw [List.eq_of_mem_replicate hmem]
  simp [zero_conn]

theorem no_sent_replied_step {P : Platform} {s s1 : State} {e : Event}
    (hs : step P s e = some s1) (h : no_sent_replied s) : no_sent_replied s1 := by
  cases e with
  | send_ping a =>
    rcases send_ping_cases hs with ⟨i, _, rfl⟩ | ⟨i, _, _, rfl⟩ | ⟨_, _, _, rfl⟩
    · exact no_sent_replied_modify_at arm _ i s.last s.last (fun c _ => by simp [arm]) h
    · exact no_sent_replied_modify_at _ _ i s.last s.last (fun c _ => by simp [arm, claim]) h
    · exact no_sent_replied_modify_at _ _ _ s.last _ (fun c _ => by simp [arm, claim]) h
  | clear_conn a =>
    simp only [step, Option.some.injEq] at hs
    subst hs
    unfold simple_udp_ping_clear_conn
    cases get_pingconn s a with
    | none => exact h
    | some i => exact no_sent_replied_modify_at disarm _ i s.last s.last (fun c _ => by simp [disarm]) h
  | free a =>
    simp only [step, Option.some.injEq] at hs
    subst hs
    unfold free_pingconn
    cases get_pingconn s a with
    | none => exact h
    | some i => exact no_sent_replied_modify_at release _ i s.last s.last (fun c hc => hc) h
  | tick f c =>
    simp only [step, Option.some.injEq] at hs
    subst hs
    unfold simple_udp_ping_process
    cases first_index (fun c => c.in_use && c.waiting) s.pingconns with
    | none => exact h
    | some i =>
      exact no_sent_replied_modify_at (on_send f c) _ i s.last s.last (fun c _ => by simp [on_send]) h
  | recv a d c1 c2 f =>
    simp only [step, Option.some.injEq] at hs
    subst hs
    unfold receiver
    split
    · exact h
    · split
      · cases get_pingconn s a with
        | none => exact h
        | some i =>
          exact no_sent_replied_modify_at (on_echo P c1 c2 f) _ i s.last s.last
            (fun c _ => by simp [on_echo]) h
      · exact h

theorem no_sent_replied_run {P : Platform} {s s1 : State} {es : List Event}
    (hs : run P s es = some s1) (h : no_sent_replied s) : no_sent_replied s1 := by
  induction es generalizing s with
  | nil =>
    simp only [run, Option.some.injEq] at hs
    subst hs
    exact h
  | cons e es ih =>
    simp only [run] at hs
    cases he : step P s e with
    | none => rw [he] at hs; cases hs
    | some s2 =>
      rw [he] at hs
      exact ih hs (no_sent_replied_step he h)

/-- The state after a clear of a tracked address. -/
theorem clear_conn_tracked {s : State} {A : uip_ipaddr_t} {i : Nat}
    (hg : get_pingconn s A = some i) :
    simple_udp_ping_clear_conn s A = ⟨modify_at disarm s.pingconns i, s.last⟩ := by
  unfold simple_udp_ping_clear_conn
  rw [hg]

theorem modify_at_eq_self (f : pingconn_t → pingconn_t) (l : List pingconn_t) (k : Nat)
    (hf : ∀ c, l[k]? = some c → f c = c) : modify_at f l k = l := by
  induction l generalizing k with
  | nil => rfl
  | cons c cs ih =>
    cases k with
    | zero =>
      simp only [modify_at]
      rw [hf c (by simp)]
    | succ k =>
      simp only [modify_at]
      rw [ih k (fun c1 hc1 => hf c1 (by simpa using hc1))]

theorem has_reply_clear_conn (s : State) (A : uip_ipaddr_t) :
    simple_udp_ping_has_reply (simple_udp_ping_clear_conn s A) A = 0 := by
  cases hg : get_pingconn s A with
  | none =>
    unfold simple_udp_ping_clear_conn simple_udp_ping_has_reply
    simp only [hg]
  | some i =>
    have hg1 : get_pingconn ⟨modify_at disarm s.pingconns i, s.last⟩ A = some i := by
      rw [get_pingconn_modify_flags disarm s i s.last A (fun c => ⟨rfl, rfl⟩)]
      exact hg
    rw [clear_conn_tracked hg, has_reply_of_get hg1,
      pingconn_at_modify_at_self _ _ _ s.last i (first_index_lt_length hg)]
    simp [disarm]

/-- A probe request that went through, made again, changes nothing. -/
theorem send_ping_idempotent {s s1 : State} {A : uip_ipaddr_t}
    (hs : simple_udp_ping_send_ping s A = some s1) :
    simple_udp_ping_send_ping s1 A = some s1 := by
  obtain ⟨k, c, hg1, hc1, _, _, hwt, hrp, _, _⟩ := send_ping_result hs
  unfold simple_udp_ping_send_ping
  rw [hg1]
  have hfix : modify_at arm s1.pingconns k = s1.pingconns := by
    apply modify_at_eq_self
    intro c2 hc2
    rw [hc1] at hc2
    cases hc2
    cases c
    simp only [arm] at *
    simp [hwt, hrp]
  simp only [hfix]

/-- A probe request for a tracked address arms the slot found and touches nothing
else. -/
theorem send_ping_tracked {s : State} {A : uip_ipaddr_t} {i : Nat}
    (hg : get_pingconn s A = some i) :
    simple_udp_ping_send_ping s A = some ⟨modify_at arm s.pingconns i, s.last⟩ := by
  unfold simple_udp_ping_send_ping
  rw [hg]

/-- The state after a release of a tracked address. -/
theorem free_pingconn_tracked {s : State} {A : uip_ipaddr_t} {i : Nat}
    (hg : get_pingconn s A = some i) :
    free_pingconn s A = ⟨modify_at release s.pingconns i, s.last⟩ := by
  unfold free_pingconn
  rw [hg]

/-- Under the uniqueness invariant a released address is no longer found. -/
theorem get_pingconn_free_self {s : State} {A : uip_ipaddr_t} (hu : unique_hosts s) :
    get_pingconn (free_pingconn s A) A = none := by
  cases hg : get_pingconn s A with
  | none =>
    unfold free_pingconn
    rw [hg]
    exact hg
  | some i =>
    rw [free_pingconn_tracked hg]
    obtain ⟨c, hc, hcu, hch⟩ := get_pingconn_slot hg
    refine (first_index_eq_none_iff _ _).2 ?_
    intro j c1 hj
    have hj1 : (modify_at release s.pingconns i)[j]? = some c1 := hj
    rw [getElem?_modify_at] at hj1
    by_cases hji : j = i
    · rw [if_pos hji, hji, hc] at hj1
      simp at hj1
      subst hj1
      simp [release]
    · rw [if_neg hji] at hj1
      cases hu1 : c1.in_use with
      | false => simp
      | true =>
        have hne : c1.host ≠ A := by
          intro hh
          exact hji (hu j i c1 c hj1 hc hu1 hcu (by rw [hh, hch]))
        simp [hne]

/-- A release of `A` does not change the slot found for another address. -/
theorem get_pingconn_free_other (s : State) {A B : uip_ipaddr_t} (hBA : B ≠ A) :
    get_pingconn (free_pingconn s A) B = get_pingconn s B := by
  cases hg : get_pingconn s A with
  | none =>
    unfold free_pingconn
    rw [hg]
  | some i =>
    rw [free_pingconn_tracked hg]
    obtain ⟨c, hc, _, hch⟩ := get_pingconn_slot hg
    apply first_index_modify_at_congr
    intro c1 hc1
    rw [hc] at hc1
    cases hc1
    have hne : c.host ≠ B := by
      rw [hch]
      exact fun h => hBA h.symm
    simp [release, hne]

/-! ## Claims -/

/-- C1: in every state reached from the initial table (all slots free) by any
sequence of probe requests, clears, releases, driver ticks and inbound messages,
no two in-use slots hold the same address. -/
theorem C1_unique_hosts_reachable (P : Platform) (n : Nat) (es : List Event) (s : State)
    (h : run P (init n) es = some s) : unique_hosts s :=
  unique_hosts_run h (unique_hosts_init n)

/-- C1 at a concrete run on a table of two slots, with an eviction, an echo, a
clear and a release. -/
theorem C1_unique_hosts_reachable_witness :
    run cortex_m (init 2)
        [Event.send_ping 1, Event.send_ping 2, Event.tick 5 7, Event.recv 1 ECHO 9 9 11,
          Event.send_ping 3, Event.clear_conn 2, Event.free 2, Event.send_ping 1] =
      some ⟨[⟨true, true, false, false, 5, 7, 6, 3⟩, ⟨true, true, false, false, 0, 0, 0, 1⟩], 0⟩ ∧
    unique_hosts ⟨[⟨true, true, false, false, 5, 7, 6, 3⟩, ⟨true, true, false, false, 0, 0, 0, 1⟩], 0⟩ :=
  ⟨by decide,
   C1_unique_hosts_reachable cortex_m 2
     [Event.send_ping 1, Event.send_ping 2, Event.tick 5 7, Event.recv 1 ECHO 9 9 11,
       Event.send_ping 3, Event.clear_conn 2, Event.free 2, Event.send_ping 1] _ (by decide)⟩

/-- C2 (amended): after a probe request for `A` that goes through,
`simple_udp_ping_has_sent A` is 1, and it is still 1 after every following
sequence of events that go through and contain no echo from `A`, no clear of `A`,
no release of `A` and no eviction of the slot of `A`. -/
theorem C2_outstanding_stays (P : Platform) (s : State) (A : uip_ipaddr_t) (es : List Event)
    (h : all_ok (stays_ok A) P s (Event.send_ping A :: es) = true) :
    ∃ s2, run P s (Event.send_ping A :: es) = some s2 ∧ simple_udp_ping_has_sent s2 A = 1 := by
  simp only [all_ok, Bool.and_eq_true] at h
  obtain ⟨_, h2⟩ := h
  cases hs : step P s (Event.send_ping A) with
  | none => rw [hs] at h2; cases h2
  | some s1 =>
    rw [hs] at h2
    obtain ⟨i, hi⟩ := outstanding_at_send_ping hs
    obtain ⟨s2, hr, ho⟩ := outstanding_at_run hi h2
    exact ⟨s2, by simp only [run, hs]; exact hr, has_sent_of_outstanding_at ho⟩

/-- C2 at a concrete run on a table of three slots: request 1, then request 2, a
tick, an echo from 2, clear 2, request 3 (which claims the free slot 2) and a tick. -/
theorem C2_outstanding_stays_witness :
    ∃ s2, run cortex_m (init 3)
        (Event.send_ping 1 :: [Event.send_ping 2, Event.tick 5 7, Event.recv 2 ECHO 9 9 11,
          Event.clear_conn 2, Event.send_ping 3, Event.tick 20 21]) = some s2 ∧
      simple_udp_ping_has_sent s2 1 = 1 :=
  C2_outstanding_stays cortex_m (init 3) 1 _ (by decide)

/-- C2 as stated fails: request 1, tick, clear 1 is a sequence with no echo from 1
and no eviction, and `simple_udp_ping_has_sent 1` is 0 after it. -/
theorem C2_stated_counterexample :
    all_ok (stays_ok_stated 1) cortex_m (init 2)
        [Event.send_ping 1, Event.tick 0 0, Event.clear_conn 1] = true ∧
      (run cortex_m (init 2) [Event.send_ping 1, Event.tick 0 0, Event.clear_conn 1]).map
        (fun s => simple_udp_ping_has_sent s 1) = some 0 := by
  decide

/-- C3 (amended): from a state where no in-use slot other than the one tracking
`A` is waiting and the request for `A` goes through (the address is tracked, or a
slot is free, or the next cursor position is inside the table), a probe request
for `A`, one driver tick and an inbound "echo" from `A` give: the tick sends exactly
one "ping", to `A`; the echo sends nothing; `simple_udp_ping_has_reply A` is 1; and,
when `int` has at least 32 bits and `RTIMER_SECOND` is at least 2,
`simple_udp_ping_get_delay A` is non-negative, for all clock readings at send and
receive. -/
theorem C3_round_trip (P : Platform) (s : State) (A : uip_ipaddr_t)
    (now_f0 now_c0 now_c1 now_c2 now_f1 : Nat)
    (hgo : get_pingconn s A ≠ none ∨ first_free s ≠ none ∨ next_last s < MAX_DESTINATIONS s)
    (hw : ∀ (j : Nat) (c : pingconn_t), s.pingconns[j]? = some c → c.in_use = true →
      c.waiting = true → get_pingconn s A = some j) :
    ∃ s1 s2 s3, simple_udp_ping_send_ping s A = some s1 ∧
      simple_udp_ping_process s1 now_f0 now_c0 = (s2, [{ data := PING, dest := A }]) ∧
      receiver P s2 A ECHO now_c1 now_c2 now_f1 = (s3, []) ∧
      simple_udp_ping_has_reply s3 A = 1 ∧
      (32 ≤ P.int_bits → 2 ≤ P.RTIMER_SECOND → 0 ≤ simple_udp_ping_get_delay P s3 A) := by
  obtain ⟨s1, hs⟩ := (send_ping_isSome_iff s A).2 hgo
  obtain ⟨k, c, hg1, hc1, hu, hh, hwt, _, hprev, hframe⟩ := send_ping_result hs
  have honly : ∀ (j : Nat) (cj : pingconn_t), s1.pingconns[j]? = some cj → cj.in_use = true →
      cj.waiting = true → j = k := by
    intro j cj hj hju hjw
    by_contra hjk
    rw [hframe j hjk] at hj
    have hgj := hw j cj hj hju hjw
    rcases hprev with hp | hp
    · rw [hp] at hgj
      exact hjk (Option.some.inj hgj).symm
    · rw [hp] at hgj
      cases hgj
  have htick := process_of_only_waiting now_f0 now_c0 hc1 hu hwt honly
  rw [hh] at htick
  have hg2 : get_pingconn ⟨modify_at (on_send now_f0 now_c0) s1.pingconns k, s1.last⟩ A =
      some k := by
    apply first_index_modify_at_self hg1
    intro c2 hc2
    rw [hc1] at hc2
    cases hc2
    simp [on_send, hu, hh]
  have hecho : receiver P ⟨modify_at (on_send now_f0 now_c0) s1.pingconns k, s1.last⟩ A ECHO
      now_c1 now_c2 now_f1 =
        (⟨modify_at (on_echo P now_c1 now_c2 now_f1)
            (modify_at (on_send now_f0 now_c0) s1.pingconns k) k, s1.last⟩, []) :=
    receiver_echo_tracked P now_c1 now_c2 now_f1 hg2
  have hg3 : get_pingconn ⟨modify_at (on_echo P now_c1 now_c2 now_f1)
      (modify_at (on_send now_f0 now_c0) s1.pingconns k) k, s1.last⟩ A = some k := by
    apply first_index_modify_at_self hg2
    intro c2 hc2
    simp only [getElem?_modify_at_self, hc1, Option.map_some', Option.some.injEq] at hc2
    subst hc2
    simp [on_echo, on_send, hu, hh]
  have hc3 : (modify_at (on_echo P now_c1 now_c2 now_f1)
      (modify_at (on_send now_f0 now_c0) s1.pingconns k) k)[k]? =
        some (on_echo P now_c1 now_c2 now_f1 (on_send now_f0 now_c0 c)) := by
    simp [getElem?_modify_at_self, hc1]
  have hat : pingconn_at ⟨modify_at (on_echo P now_c1 now_c2 now_f1)
      (modify_at (on_send now_f0 now_c0) s1.pingconns k) k, s1.last⟩ k =
        on_echo P now_c1 now_c2 now_f1 (on_send now_f0 now_c0 c) :=
    pingconn_at_of_getElem? hc3
  refine ⟨s1, _, _, hs, htick, hecho, ?_, ?_⟩
  · unfold simple_udp_ping_has_reply
    rw [hg3]
    simp only [hat]
    simp [on_echo]
  · intro hint hR
    unfold simple_udp_ping_get_delay
    rw [hg3]
    simp only [hat]
    simp only [on_echo, Bool.not_true, Bool.false_eq_true, if_false]
    rw [to_int_of_lt P _ hint (ms_lt_of_two_le _ _ hR)]
    exact Int.natCast_nonneg _

/-- C3 at a concrete input: the 32-bit platform, an empty table of two slots,
address 1, ping sent at clock 7 / rtimer 5, echo received at clock 9 / rtimer 11. -/
theorem C3_round_trip_witness :
    ∃ s1 s2 s3, simple_udp_ping_send_ping (init 2) 1 = some s1 ∧
      simple_udp_ping_process s1 5 7 = (s2, [{ data := PING, dest := 1 }]) ∧
      receiver cortex_m s2 1 ECHO 9 9 11 = (s3, []) ∧
      simple_udp_ping_has_reply s3 1 = 1 ∧ 0 ≤ simple_udp_ping_get_delay cortex_m s3 1 := by
  have hw : ∀ (j : Nat) (c : pingconn_t), (init 2).pingconns[j]? = some c → c.in_use = true →
      c.waiting = true → get_pingconn (init 2) 1 = some j := by
    intro j c hj hu
    have hmem : c ∈ List.replicate 2 zero_conn := List.getElem?_mem hj
    have := List.eq_of_mem_replicate hmem
    subst this
    simp [zero_conn] at hu
  obtain ⟨s1, s2, s3, h1, h2, h3, h4, h5⟩ :=
    C3_round_trip cortex_m (init 2) 1 5 7 9 9 11 (by decide) hw
  exact ⟨s1, s2, s3, h1, h2, h3, h4, h5 (by decide) (by decide)⟩

/-- C3 as stated fails on a platform with a 16-bit `int`: from the empty table,
request 1, a tick at clock 0 and an echo at clock 4195 (32.8 s later) leave a
delay of 1073920 rtimer ticks, 32773 ms, which `(int)` turns into -32763. -/
theorem C3_stated_counterexample :
    (run msp430 (init 2) [Event.send_ping 1, Event.tick 0 0, Event.recv 1 ECHO 4195 4195 0]).map
        (fun s => (simple_udp_ping_has_reply s 1, (pingconn_at s 0).delay,
          simple_udp_ping_get_delay msp430 s 1)) = some (1, 1073920, -32763) ∧
      ¬ (0 : Int) ≤ -32763 := by
  decide

/-- The cursor of a full table whose cursor stands at the last slot moves to
`MAX_DESTINATIONS`, and the allocation writes outside the table. -/
theorem allocate_pingconn_out_of_table (s : State) (addr : uip_ipaddr_t)
    (hfull : first_free s = none) (hlast : s.last + 1 = MAX_DESTINATIONS s) :
    next_last s = MAX_DESTINATIONS s ∧ allocate_pingconn s addr = none := by
  have hn : next_last s = MAX_DESTINATIONS s := by
    unfold next_last
    rw [if_neg (by omega)]
    exact hlast
  refine ⟨hn, ?_⟩
  unfold allocate_pingconn
  rw [hfull]
  simp [hn]

/-- C4 (failing input): on a table of 2 slots, after requests for 1, 2, 3, 4 (two
claims, then evictions of slots 0 and 1) the table is full with cursor 1; a
request for the untracked address 5 computes the victim index 2 = `MAX_DESTINATIONS`,
which is outside the table. -/
theorem C4_victim_index_reaches_capacity :
    run cortex_m (init 2)
        [Event.send_ping 1, Event.send_ping 2, Event.send_ping 3, Event.send_ping 4] =
      some ⟨[⟨true, true, false, false, 0, 0, 0, 3⟩, ⟨true, true, false, false, 0, 0, 0, 4⟩], 1⟩ ∧
    MAX_DESTINATIONS
      ⟨[⟨true, true, false, false, 0, 0, 0, 3⟩, ⟨true, true, false, false, 0, 0, 0, 4⟩], 1⟩ = 2 ∧
    get_pingconn
      ⟨[⟨true, true, false, false, 0, 0, 0, 3⟩, ⟨true, true, false, false, 0, 0, 0, 4⟩], 1⟩ 5 = none ∧
    first_free
      ⟨[⟨true, true, false, false, 0, 0, 0, 3⟩, ⟨true, true, false, false, 0, 0, 0, 4⟩], 1⟩ = none ∧
    next_last
      ⟨[⟨true, true, false, false, 0, 0, 0, 3⟩, ⟨true, true, false, false, 0, 0, 0, 4⟩], 1⟩ = 2 ∧
    simple_udp_ping_send_ping
      ⟨[⟨true, true, false, false, 0, 0, 0, 3⟩, ⟨true, true, false, false, 0, 0, 0, 4⟩], 1⟩ 5 = none := by
  decide

/-- C5 (amended): a call of `allocate_pingconn` that finds a free slot claims it
(writes `in_use = 1` and the address into it) and leaves the cursor where it was; a
call that finds none moves the cursor one position forward when that position is
inside the table, and to 0 when the cursor stood at `MAX_DESTINATIONS` or beyond
(its initial value), and claims the slot under the new cursor.  In every call that
returns, the slot handed out is in use with the new address, its other fields are
what they were, and every other slot and the size of the table are unchanged. -/
theorem C5_cursor_moves_on_eviction_only (s : State) (addr : uip_ipaddr_t) :
    (∀ i, first_free s = some i →
      allocate_pingconn s addr =
        some (⟨modify_at (claim addr) s.pingconns i, s.last⟩, i)) ∧
    (first_free s = none → s.last + 1 < MAX_DESTINATIONS s →
      allocate_pingconn s addr =
        some (⟨modify_at (claim addr) s.pingconns (s.last + 1), s.last + 1⟩, s.last + 1)) ∧
    (first_free s = none → MAX_DESTINATIONS s ≤ s.last → 0 < MAX_DESTINATIONS s →
      allocate_pingconn s addr = some (⟨modify_at (claim addr) s.pingconns 0, 0⟩, 0)) ∧
    (∀ (s1 : State) (k : Nat), allocate_pingconn s addr = some (s1, k) →
      (first_free s = some k ∧ s1.last = s.last ∨
        first_free s = none ∧ k = next_last s ∧ s1.last = next_last s) ∧
      s1.pingconns.length = s.pingconns.length ∧
      (∃ c0 c1, s.pingconns[k]? = some c0 ∧ s1.pingconns[k]? = some c1 ∧
        c1.in_use = true ∧ c1.host = addr ∧ c1.waiting = c0.waiting ∧ c1.sent = c0.sent ∧
        c1.replied = c0.replied ∧ c1.echo_time = c0.echo_time ∧
        c1.echo_time2 = c0.echo_time2 ∧ c1.delay = c0.delay) ∧
      ∀ j : Nat, j ≠ k → s1.pingconns[j]? = s.pingconns[j]?) := by
  refine ⟨?_, ?_, ?_, ?_⟩
  · intro i hf
    unfold allocate_pingconn
    rw [hf]
  · intro hf hlt
    have hn : next_last s = s.last + 1 := by
      unfold next_last
      rw [if_neg (by omega)]
    unfold allocate_pingconn
    rw [hf, hn, if_pos hlt]
  · intro hf hge hpos
    have hn : next_last s = 0 := by
      unfold next_last
      rw [if_pos (by omega)]
    unfold allocate_pingconn
    rw [hf, hn, if_pos hpos]
  · intro s1 k hs
    have main : ∀ L : Nat, k < s.pingconns.length →
        s1 = ⟨modify_at (claim addr) s.pingconns k, L⟩ →
        s1.pingconns.length = s.pingconns.length ∧
        (∃ c0 c1, s.pingconns[k]? = some c0 ∧ s1.pingconns[k]? = some c1 ∧
          c1.in_use = true ∧ c1.host = addr ∧ c1.waiting = c0.waiting ∧ c1.sent = c0.sent ∧
          c1.replied = c0.replied ∧ c1.echo_time = c0.echo_time ∧
          c1.echo_time2 = c0.echo_time2 ∧ c1.delay = c0.delay) ∧
        ∀ j : Nat, j ≠ k → s1.pingconns[j]? = s.pingconns[j]? := by
      intro L hk hs1
      have hc0 : s.pingconns[k]? = some s.pingconns[k] := List.getElem?_eq_getElem hk
      subst hs1
      refine ⟨length_modify_at _ _ _, ⟨s.pingconns[k], claim addr s.pingconns[k], hc0, ?_,
        rfl, rfl, rfl, rfl, rfl, rfl, rfl, rfl⟩, ?_⟩
      · simp [getElem?_modify_at, hc0]
      · intro j hj
        exact getElem?_modify_at_ne _ _ hj
    unfold allocate_pingconn at hs
    cases hf : first_free s with
    | some i =>
      rw [hf] at hs
      simp only [Option.some.injEq, Prod.mk.injEq] at hs
      obtain ⟨h1, h2⟩ := hs
      subst h2
      have hi : i < s.pingconns.length := first_index_lt_length hf
      refine ⟨Or.inl ⟨rfl, ?_⟩, main s.last hi h1.symm⟩
      rw [← h1]
    | none =>
      rw [hf] at hs
      by_cases hlt : next_last s < MAX_DESTINATIONS s
      · simp only [hlt, if_true, Option.some.injEq, Prod.mk.injEq] at hs
        obtain ⟨h1, h2⟩ := hs
        subst h2
        refine ⟨Or.inr ⟨rfl, rfl, ?_⟩, main (next_last s) hlt h1.symm⟩
        rw [← h1]
      · simp [hlt] at hs

/-- C5 at concrete inputs: a claim of a free slot on the empty table of two slots
(slot 0 claimed, cursor stays 2), an eviction on a full table of three slots with
cursor 0 (slot 1 overwritten, cursor 1), and the first eviction on a full table of
two slots (slot 0 overwritten, cursor 2 to 0). -/
theorem C5_cursor_moves_on_eviction_only_witness :
    allocate_pingconn (init 2) 7 =
      some (⟨[⟨true, false, false, false, 0, 0, 0, 7⟩, zero_conn], 2⟩, 0) ∧
    allocate_pingconn
        ⟨[⟨true, false, false, false, 0, 0, 0, 1⟩, ⟨true, false, true, false, 5, 6, 0, 2⟩,
          ⟨true, false, false, false, 0, 0, 0, 3⟩], 0⟩ 7 =
      some (⟨[⟨true, false, false, false, 0, 0, 0, 1⟩, ⟨true, false, true, false, 5, 6, 0, 7⟩,
          ⟨true, false, false, false, 0, 0, 0, 3⟩], 1⟩, 1) ∧
    allocate_pingconn
        ⟨[⟨true, false, false, false, 0, 0, 0, 1⟩, ⟨true, false, false, false, 0, 0, 0, 2⟩], 2⟩ 7 =
      some (⟨[⟨true, false, false, false, 0, 0, 0, 7⟩, ⟨true, false, false, false, 0, 0, 0, 2⟩],
        0⟩, 0) :=
  ⟨(C5_cursor_moves_on_eviction_only (init 2) 7).1 0 (by decide),
   (C5_cursor_moves_on_eviction_only
      ⟨[⟨true, false, false, false, 0, 0, 0, 1⟩, ⟨true, false, true, false, 5, 6, 0, 2⟩,
        ⟨true, false, false, false, 0, 0, 0, 3⟩], 0⟩ 7).2.1 (by decide) (by decide),
   (C5_cursor_moves_on_eviction_only
      ⟨[⟨true, false, false, false, 0, 0, 0, 1⟩, ⟨true, false, false, false, 0, 0, 0, 2⟩], 2⟩ 7).2.2.1
      (by decide) (by decide) (by decide)⟩

/-- C5 as stated fails: on the empty table of two slots a call of
`allocate_pingconn` claims slot 0 and leaves the cursor at 2; it has not advanced
by one position modulo 2. -/
theorem C5_stated_counterexample :
    allocate_pingconn (init 2) 7 =
        some (⟨[⟨true, false, false, false, 0, 0, 0, 7⟩, zero_conn], 2⟩, 0) ∧
      (init 2).last = 2 ∧ (2 + 1) % 2 ≠ 2 := by
  decide

/-- C6: for every capacity N = `As.length + 1` and pairwise distinct addresses
`A1, As, C`, probe requests for `A1`, then `As`, then `C` on the empty table go
through and evict `A1`: afterwards `simple_udp_ping_has_sent` is 0 for `A1`, 1 for
`C` and 1 for every address of `As`. -/
theorem C6_fill_then_evict (P : Platform) (A1 C : uip_ipaddr_t) (As : List uip_ipaddr_t)
    (hnd : (A1 :: (As ++ [C])).Nodup) :
    ∃ s, run P (init (As.length + 1)) ((A1 :: (As ++ [C])).map Event.send_ping) = some s ∧
      simple_udp_ping_has_sent s A1 = 0 ∧ simple_udp_ping_has_sent s C = 1 ∧
      ∀ B ∈ As, simple_udp_ping_has_sent s B = 1 := by
  obtain ⟨hA1, hnd1⟩ := List.nodup_cons.1 hnd
  have hA1As : A1 ∉ As := fun h => hA1 (List.mem_append_left _ h)
  have hA1C : C ≠ A1 := fun h => hA1 (List.mem_append_right _ (by simp [h]))
  have hndAs : As.Nodup := (List.nodup_append.1 hnd1).1
  have hCAs : C ∉ As := by
    intro h
    exact (List.nodup_append.1 hnd1).2.2 h (List.mem_singleton_self C)
  have hfill := run_fill P (A1 :: As) [] 0 (As.length + 1)
    (List.nodup_cons.2 ⟨hA1As, hndAs⟩) (fun c hc => by simp at hc)
  have hfill2 : run P (init (As.length + 1)) ((A1 :: As).map Event.send_ping) =
      some ⟨armed_slot A1 :: As.map armed_slot, As.length + 1⟩ := by
    simpa [init] using hfill
  have hlast := send_ping_first_eviction A1 C As ⟨hA1C, hCAs⟩
  refine ⟨⟨armed_slot C :: As.map armed_slot, 0⟩, ?_, ?_, ?_, ?_⟩
  · have hsplit : (A1 :: (As ++ [C])).map Event.send_ping =
        (A1 :: As).map Event.send_ping ++ [Event.send_ping C] := by simp
    rw [hsplit, run_append, hfill2]
    simp only [Option.bind, run, step, hlast]
  · have hg : get_pingconn ⟨armed_slot C :: As.map armed_slot, 0⟩ A1 = none := by
      apply first_index_eq_none_of_forall
      intro c hc
      rcases List.mem_cons.1 hc with h1 | h1
      · subst h1
        simp [armed_slot, arm, claim, hA1C]
      · obtain ⟨a, ha, rfl⟩ := List.mem_map.1 h1
        have : a ≠ A1 := fun h => hA1As (h ▸ ha)
        simp [armed_slot, arm, claim, this]
    unfold simple_udp_ping_has_sent
    rw [hg]
  · apply has_sent_of_all_waiting
    · intro c hc
      rcases List.mem_cons.1 hc with h1 | h1
      · subst h1; rfl
      · obtain ⟨a, _, rfl⟩ := List.mem_map.1 h1
        rfl
    · exact ⟨armed_slot C, List.mem_cons_self _ _, rfl, rfl⟩
  · intro B hB
    apply has_sent_of_all_waiting
    · intro c hc
      rcases List.mem_cons.1 hc with h1 | h1
      · subst h1; rfl
      · obtain ⟨a, _, rfl⟩ := List.mem_map.1 h1
        rfl
    · exact ⟨armed_slot B, List.mem_cons_of_mem _ (List.mem_map.2 ⟨B, hB, rfl⟩), rfl, rfl⟩

/-- C6 at capacity 2 with A = 1, B = 2, C = 3. -/
theorem C6_fill_then_evict_witness :
    ∃ s, run cortex_m (init 2) [Event.send_ping 1, Event.send_ping 2, Event.send_ping 3] = some s ∧
      simple_udp_ping_has_sent s 1 = 0 ∧ simple_udp_ping_has_sent s 3 = 1 ∧
      ∀ B ∈ [2], simple_udp_ping_has_sent s B = 1 :=
  C6_fill_then_evict cortex_m 1 3 [2] (by decide)

/-- C7 (amended): for a sender tracked by slot `i` with send timestamps
`echo_time2` (coarse) and `echo_time` (fine), a coarse clock that has not wrapped
since the send and reads `T_c1` at both calls of `clock_time()`, and a fine clock
reading `T_f1`, the delay the echo branch of `receiver` stores in slot `i` is:
`floor((T_c1 - echo_time2) * RTIMER_SECOND / CLOCK_SECOND)` if `T_c1 - echo_time2`
exceeds `CLOCK_SECOND` and the product `(T_c1 - echo_time2) * RTIMER_SECOND` fits 32
bits; `T_f1 - echo_time` exactly if `T_c1 - echo_time2` does not exceed
`CLOCK_SECOND` (for a fine clock that has wrapped once, of a type not narrower than
`int`: `T_f1 + 2^rtimer_bits - echo_time`). -/
theorem C7_echo_delay (P : Platform) (s : State) (A : uip_ipaddr_t) (i T_c1 T_f1 : Nat)
    (hg : get_pingconn s A = some i)
    (hc : (pingconn_at s i).echo_time2 ≤ T_c1) (hcw : T_c1 < 2 ^ P.clock_bits) :
    (P.CLOCK_SECOND < T_c1 - (pingconn_at s i).echo_time2 →
      (T_c1 - (pingconn_at s i).echo_time2) * P.RTIMER_SECOND < 4294967296 →
      (pingconn_at (receiver P s A ECHO T_c1 T_c1 T_f1).1 i).delay =
        (T_c1 - (pingconn_at s i).echo_time2) * P.RTIMER_SECOND / P.CLOCK_SECOND) ∧
    (T_c1 - (pingconn_at s i).echo_time2 ≤ P.CLOCK_SECOND →
      (pingconn_at s i).echo_time ≤ T_f1 → T_f1 < 2 ^ P.rtimer_bits →
      T_f1 - (pingconn_at s i).echo_time < 4294967296 →
      (pingconn_at (receiver P s A ECHO T_c1 T_c1 T_f1).1 i).delay =
        T_f1 - (pingconn_at s i).echo_time) ∧
    (T_c1 - (pingconn_at s i).echo_time2 ≤ P.CLOCK_SECOND →
      T_f1 < (pingconn_at s i).echo_time → (pingconn_at s i).echo_time < 2 ^ P.rtimer_bits →
      P.int_bits ≤ P.rtimer_bits → P.rtimer_bits ≤ 32 →
      (pingconn_at (receiver P s A ECHO T_c1 T_c1 T_f1).1 i).delay =
        T_f1 + 2 ^ P.rtimer_bits - (pingconn_at s i).echo_time) := by
  have hi : i < s.pingconns.length := first_index_lt_length hg
  have hat : (pingconn_at (receiver P s A ECHO T_c1 T_c1 T_f1).1 i).delay =
      echo_delay P (pingconn_at s i) T_c1 T_c1 T_f1 := by
    rw [receiver_echo_tracked P T_c1 T_c1 T_f1 hg]
    show (pingconn_at ⟨modify_at (on_echo P T_c1 T_c1 T_f1) s.pingconns i, s.last⟩ i).delay = _
    rw [pingconn_at_modify_at_self _ _ _ s.last i hi]
    rfl
  rw [hat]
  exact echo_delay_value P (pingconn_at s i) T_c1 T_f1 hc hcw

/-- C7 at concrete inputs, for a ping sent at clock 7 and rtimer 5: on the 32-bit
platform an echo 1000 clock ticks later stores 1000 * 32768 / 128 = 256000 and an echo
2 clock ticks later stores the rtimer difference 11 - 5 = 6; on the 16-bit platform
an echo 2 clock ticks later at rtimer 3 (wrapped) stores 3 + 65536 - 5 = 65534. -/
theorem C7_echo_delay_witness :
    (pingconn_at (receiver cortex_m ⟨[⟨true, false, true, false, 5, 7, 0, 1⟩, zero_conn], 2⟩ 1
        ECHO 1007 1007 0).1 0).delay = (1007 - 7) * 32768 / 128 ∧
    (pingconn_at (receiver cortex_m ⟨[⟨true, false, true, false, 5, 7, 0, 1⟩, zero_conn], 2⟩ 1
        ECHO 9 9 11).1 0).delay = 11 - 5 ∧
    (pingconn_at (receiver msp430 ⟨[⟨true, false, true, false, 5, 7, 0, 1⟩, zero_conn], 2⟩ 1
        ECHO 9 9 3).1 0).delay = 3 + 2 ^ 16 - 5 :=
  ⟨(C7_echo_delay cortex_m ⟨[⟨true, false, true, false, 5, 7, 0, 1⟩, zero_conn], 2⟩ 1 0 1007 0
      (by decide) (by decide) (by decide)).1 (by decide) (by decide),
   (C7_echo_delay cortex_m ⟨[⟨true, false, true, false, 5, 7, 0, 1⟩, zero_conn], 2⟩ 1 0 9 11
      (by decide) (by decide) (by decide)).2.1 (by decide) (by decide) (by decide) (by decide),
   (C7_echo_delay msp430 ⟨[⟨true, false, true, false, 5, 7, 0, 1⟩, zero_conn], 2⟩ 1 0 9 3
      (by decide) (by decide) (by decide)).2.2 (by decide) (by decide) (by decide) (by decide)
      (by decide)⟩

/-- C7 as stated fails: on the 32-bit platform a ping sent at clock 0 and echoed at
clock 131072 (1024 s later) is more than `CLOCK_SECOND` = 128 ticks old, the
conversion is 131072 * 32768 / 128 = 33554432 rtimer ticks, and the stored delay
is 0. -/
theorem C7_stated_counterexample :
    (run cortex_m (init 2)
        [Event.send_ping 1, Event.tick 0 0, Event.recv 1 ECHO 131072 131072 0]).map
        (fun s => ((pingconn_at s 0).echo_time2, (pingconn_at s 0).delay)) = some (0, 0) ∧
      cortex_m.CLOCK_SECOND < 131072 - 0 ∧
      (131072 - 0) * cortex_m.RTIMER_SECOND / cortex_m.CLOCK_SECOND = 33554432 := by
  decide

/-- C8 (amended): when `int` has at least 32 bits, `simple_udp_ping_get_delay`
returns -1 exactly when `get_pingconn` finds no slot for the address or the slot
found is not replied; for a replied slot the result differs from -1 whatever the
stored delay is. -/
theorem C8_get_delay_none_iff (P : Platform) (s : State) (A : uip_ipaddr_t)
    (hint : 32 ≤ P.int_bits) :
    simple_udp_ping_get_delay P s A = -1 ↔
      (get_pingconn s A = none ∨
        ∃ i, get_pingconn s A = some i ∧ (pingconn_at s i).replied = false) := by
  unfold simple_udp_ping_get_delay
  cases hg : get_pingconn s A with
  | none => simp
  | some i =>
    cases hr : (pingconn_at s i).replied with
    | false => simp [hr]
    | true =>
      simp only [hr, Bool.not_true, Bool.false_eq_true, if_false, Option.some.injEq,
        false_or, exists_eq_left', reduceCtorEq]
      constructor
      · intro h
        exact absurd h (to_int_ne_neg_one P _ hint (ms_ne_max _ _))
      · intro h
        cases h

/-- C8 at a concrete input on the 32-bit platform: after request, tick and echo
the slot of address 1 is replied and the delay reported is not -1. -/
theorem C8_get_delay_none_iff_witness :
    simple_udp_ping_get_delay cortex_m
        ⟨[⟨true, false, false, true, 5, 7, 6, 1⟩, zero_conn], 2⟩ 1 = -1 ↔
      (get_pingconn ⟨[⟨true, false, false, true, 5, 7, 6, 1⟩, zero_conn], 2⟩ 1 = none ∨
        ∃ i, get_pingconn ⟨[⟨true, false, false, true, 5, 7, 6, 1⟩, zero_conn], 2⟩ 1 = some i ∧
          (pingconn_at ⟨[⟨true, false, false, true, 5, 7, 6, 1⟩, zero_conn], 2⟩ i).replied = false) :=
  C8_get_delay_none_iff cortex_m ⟨[⟨true, false, false, true, 5, 7, 6, 1⟩, zero_conn], 2⟩ 1
    (by decide)

/-- C8 as stated fails on a platform with a 16-bit `int`: request 1, a tick at
clock 0 and an echo at clock 41943 leave slot 0 replied with delay 10737408; the
32-bit product 1000 * 10737408 wraps to 2147473408, the quotient by 32768 is 65535,
and `(int)65535` is -1. -/
theorem C8_stated_counterexample :
    (run msp430 (init 2) [Event.send_ping 1, Event.tick 0 0, Event.recv 1 ECHO 41943 41943 0]).map
        (fun s => (get_pingconn s 1, (pingconn_at s 0).replied, (pingconn_at s 0).delay,
          simple_udp_ping_get_delay msp430 s 1)) = some (some 0, true, 10737408, -1) := by
  decide

/-- C9 (amended): for a replied slot with stored delay `d`, when the product
`1000 * d` fits 32 bits and the quotient fits `int`, `simple_udp_ping_get_delay`
returns `floor(1000 * d / RTIMER_SECOND)`. -/
theorem C9_get_delay_ms (P : Platform) (s : State) (A : uip_ipaddr_t) (i : Nat)
    (hg : get_pingconn s A = some i) (hr : (pingconn_at s i).replied = true)
    (hfit : 1000 * (pingconn_at s i).delay < 4294967296)
    (hq : 1000 * (pingconn_at s i).delay / P.RTIMER_SECOND < 2 ^ (P.int_bits - 1)) :
    simple_udp_ping_get_delay P s A =
      ((1000 * (pingconn_at s i).delay / P.RTIMER_SECOND : Nat) : Int) := by
  unfold simple_udp_ping_get_delay
  rw [hg]
  simp only [hr, Bool.not_true, Bool.false_eq_true, if_false]
  rw [Nat.mod_eq_of_lt hfit]
  exact to_int_of_lt_half P _ hq

/-- C9 at a concrete input on the 32-bit platform: a replied slot with a delay of
65536 rtimer ticks (2 s) reports 1000 * 65536 / 32768 = 2000 ms. -/
theorem C9_get_delay_ms_witness :
    simple_udp_ping_get_delay cortex_m ⟨[⟨true, false, false, true, 5, 7, 65536, 1⟩], 1⟩ 1 =
      ((1000 * 65536 / 32768 : Nat) : Int) :=
  C9_get_delay_ms cortex_m ⟨[⟨true, false, false, true, 5, 7, 65536, 1⟩], 1⟩ 1 0
    (by decide) (by decide) (by decide) (by decide)

/-- C9 as stated fails: on the 32-bit platform request 1, a tick at clock 0 and an
echo at clock 16778 (131 s later) leave slot 0 replied with delay 4295168; the
32-bit product 1000 * 4295168 wraps to 200704 and the result is 6, where
`floor(1000 * 4295168 / 32768)` is 131078. -/
theorem C9_stated_counterexample :
    (run cortex_m (init 2)
        [Event.send_ping 1, Event.tick 0 0, Event.recv 1 ECHO 16778 16778 0]).map
        (fun s => ((pingconn_at s 0).replied, (pingconn_at s 0).delay,
          simple_udp_ping_get_delay cortex_m s 1)) = some (true, 4295168, 6) ∧
      1000 * 4295168 / cortex_m.RTIMER_SECOND = 131078 := by
  decide

/-- C10: an inbound 4-byte "echo" from an address that `get_pingconn` does not
find leaves the table and the cursor as they were and sends nothing. -/
theorem C10_echo_from_untracked (P : Platform) (s : State) (A : uip_ipaddr_t)
    (now_c1 now_c2 now_f : Nat) (h : ∀ c ∈ s.pingconns, c.in_use = true → c.host ≠ A) :
    get_pingconn s A = none ∧ receiver P s A ECHO now_c1 now_c2 now_f = (s, []) := by
  have hg : get_pingconn s A = none := by
    apply first_index_eq_none_of_forall
    intro c hc
    cases hu : c.in_use with
    | false => rfl
    | true => simp [h c hc hu]
  refine ⟨hg, ?_⟩
  unfold receiver
  rw [if_neg (by decide), if_pos (by decide), hg]

/-- C10 at a concrete input: an echo from address 9 on a table tracking 1 and 2. -/
theorem C10_echo_from_untracked_witness :
    get_pingconn
        ⟨[⟨true, false, true, false, 5, 7, 0, 1⟩, ⟨true, true, false, false, 0, 0, 0, 2⟩], 2⟩ 9 =
      none ∧
    receiver cortex_m
        ⟨[⟨true, false, true, false, 5, 7, 0, 1⟩, ⟨true, true, false, false, 0, 0, 0, 2⟩], 2⟩ 9
        ECHO 9 9 11 =
      (⟨[⟨true, false, true, false, 5, 7, 0, 1⟩, ⟨true, true, false, false, 0, 0, 0, 2⟩], 2⟩, []) :=
  C10_echo_from_untracked cortex_m _ 9 9 9 11 (by decide)

/-- C11: for every state and every sender, tracked or not, an inbound payload of
length 4 equal to "ping" makes `receiver` send exactly one datagram, the 4 bytes
"echo" addressed to that sender, and leaves the table and the cursor unchanged. -/
theorem C11_ping_elicits_one_echo (P : Platform) (s : State) (A : uip_ipaddr_t)
    (now_c1 now_c2 now_f : Nat) :
    PING.length = 4 ∧ ECHO.length = 4 ∧
      receiver P s A PING now_c1 now_c2 now_f = (s, [{ data := ECHO, dest := A }]) := by
  refine ⟨by decide, by decide, ?_⟩
  unfold receiver
  rw [if_pos (by decide)]

/-- C12: for every state, sender and payload whose length is not 4 or whose bytes
are neither "ping" nor "echo", `receiver` leaves the table and the cursor unchanged
and sends nothing. -/
theorem C12_malformed_dropped (P : Platform) (s : State) (A : uip_ipaddr_t) (data : List Nat)
    (now_c1 now_c2 now_f : Nat) (h : data.length ≠ 4 ∨ (data ≠ PING ∧ data ≠ ECHO)) :
    receiver P s A data now_c1 now_c2 now_f = (s, []) := by
  have htake : data.length = 4 → data.take 4 = data := fun hl =>
    List.take_of_length_le (by omega)
  have h1 : ¬ (data.length = DATALEN ∧ data.take 4 = PING) := by
    rintro ⟨hl, hp⟩
    rw [htake hl] at hp
    rcases h with h | h
    · exact h hl
    · exact h.1 hp
  have h2 : ¬ (data.length = DATALEN ∧ data.take 4 = ECHO) := by
    rintro ⟨hl, hp⟩
    rw [htake hl] at hp
    rcases h with h | h
    · exact h hl
    · exact h.2 hp
  unfold receiver
  rw [if_neg h1, if_neg h2]

/-- C12 at concrete inputs: a 5-byte payload starting with "ping" and the 4-byte
payload "pong" on a table tracking address 1. -/
theorem C12_malformed_dropped_witness :
    receiver cortex_m ⟨[⟨true, false, true, false, 5, 7, 0, 1⟩], 1⟩ 1 [112, 105, 110, 103, 0]
        9 9 11 = (⟨[⟨true, false, true, false, 5, 7, 0, 1⟩], 1⟩, []) ∧
    receiver cortex_m ⟨[⟨true, false, true, false, 5, 7, 0, 1⟩], 1⟩ 1 [112, 111, 110, 103]
        9 9 11 = (⟨[⟨true, false, true, false, 5, 7, 0, 1⟩], 1⟩, []) :=
  ⟨C12_malformed_dropped cortex_m _ 1 [112, 105, 110, 103, 0] 9 9 11 (by decide),
   C12_malformed_dropped cortex_m _ 1 [112, 111, 110, 103] 9 9 11 (by decide)⟩

/-- C13: one driver tick sends at most one datagram.  If slot `i` is the
lowest-indexed slot that is in use and waiting, exactly one "ping" is sent, to the
host of slot `i`; slot `i` gets `waiting` cleared, `sent` set, `replied` cleared and
both send timestamps recorded, its other fields and every other slot are unchanged,
and so are the cursor and the size of the table.  If no in-use slot is waiting,
the tick sends nothing and changes nothing. -/
theorem C13_tick_sends_at_most_one (s : State) (now_f now_c : Nat) :
    (∀ (i : Nat) (c : pingconn_t), s.pingconns[i]? = some c → c.in_use = true →
      c.waiting = true →
      (∀ (j : Nat) (cj : pingconn_t), j < i → s.pingconns[j]? = some cj →
        ¬ (cj.in_use = true ∧ cj.waiting = true)) →
      ∃ s1 c1, simple_udp_ping_process s now_f now_c = (s1, [{ data := PING, dest := c.host }]) ∧
        s1.last = s.last ∧ s1.pingconns.length = s.pingconns.length ∧
        s1.pingconns[i]? = some c1 ∧
        c1.waiting = false ∧ c1.sent = true ∧ c1.replied = false ∧
        c1.echo_time = now_f ∧ c1.echo_time2 = now_c ∧
        c1.in_use = c.in_use ∧ c1.host = c.host ∧ c1.delay = c.delay ∧
        ∀ j : Nat, j ≠ i → s1.pingconns[j]? = s.pingconns[j]?) ∧
    ((∀ c ∈ s.pingconns, ¬ (c.in_use = true ∧ c.waiting = true)) →
      simple_udp_ping_process s now_f now_c = (s, [])) := by
  constructor
  · intro i c hc hu hw hmin
    have hfi : first_index (fun c => c.in_use && c.waiting) s.pingconns = some i := by
      refine (first_index_eq_some_iff _ _ i).2 ⟨⟨c, hc, by simp [hu, hw]⟩, ?_⟩
      intro j hj cj hcj
      have := hmin j cj hj hcj
      cases hju : cj.in_use with
      | false => rfl
      | true =>
        cases hjw : cj.waiting with
        | false => rfl
        | true => exact absurd ⟨hju, hjw⟩ this
    refine ⟨⟨modify_at (on_send now_f now_c) s.pingconns i, s.last⟩, on_send now_f now_c c,
      ?_, rfl, length_modify_at _ _ _, ?_, rfl, rfl, rfl, rfl, rfl, rfl, rfl, rfl, ?_⟩
    · unfold simple_udp_ping_process
      rw [hfi]
      simp only [pingconn_at_of_getElem? hc]
    · simp [getElem?_modify_at, hc]
    · intro j hj
      exact getElem?_modify_at_ne _ _ hj
  · intro hnone
    have hfi : first_index (fun c => c.in_use && c.waiting) s.pingconns = none := by
      apply first_index_eq_none_of_forall
      intro c hc
      have := hnone c hc
      cases hju : c.in_use with
      | false => rfl
      | true =>
        cases hjw : c.waiting with
        | false => rfl
        | true => exact absurd ⟨hju, hjw⟩ this
    unfold simple_udp_ping_process
    rw [hfi]

/-- C13 at concrete inputs: on a table whose slots 1 and 2 are waiting, the tick
sends one "ping" to the host of slot 1 and leaves slot 2 waiting; on a table with
no waiting slot it sends nothing. -/
theorem C13_tick_sends_at_most_one_witness :
    (∃ s1 c1, simple_udp_ping_process
        ⟨[⟨true, false, true, false, 1, 2, 0, 7⟩, ⟨true, true, false, true, 0, 0, 3, 8⟩,
          ⟨true, true, false, false, 0, 0, 0, 9⟩], 3⟩ 20 21 = (s1, [{ data := PING, dest := 8 }]) ∧
        s1.last = 3 ∧ s1.pingconns.length = 3 ∧ s1.pingconns[1]? = some c1 ∧
        c1.waiting = false ∧ c1.sent = true ∧ c1.replied = false ∧
        c1.echo_time = 20 ∧ c1.echo_time2 = 21 ∧
        c1.in_use = true ∧ c1.host = 8 ∧ c1.delay = 3 ∧
        ∀ j : Nat, j ≠ 1 → s1.pingconns[j]? =
          [(⟨true, false, true, false, 1, 2, 0, 7⟩ : pingconn_t),
            ⟨true, true, false, true, 0, 0, 3, 8⟩, ⟨true, true, false, false, 0, 0, 0, 9⟩][j]?) ∧
    simple_udp_ping_process ⟨[⟨true, false, true, false, 1, 2, 0, 7⟩], 1⟩ 20 21 =
      (⟨[⟨true, false, true, false, 1, 2, 0, 7⟩], 1⟩, []) :=
  ⟨(C13_tick_sends_at_most_one
      ⟨[⟨true, false, true, false, 1, 2, 0, 7⟩, ⟨true, true, false, true, 0, 0, 3, 8⟩,
        ⟨true, true, false, false, 0, 0, 0, 9⟩], 3⟩ 20 21).1 1 ⟨true, true, false, true, 0, 0, 3, 8⟩
      (by decide) (by decide) (by decide)
      (by
        intro j cj hj hcj
        have hj0 : j = 0 := by omega
        subst hj0
        simp at hcj
        subst hcj
        simp),
   (C13_tick_sends_at_most_one ⟨[⟨true, false, true, false, 1, 2, 0, 7⟩], 1⟩ 20 21).2
      (by decide)⟩

/-- C14 (amended): in every state reached from the initial table no slot has `sent`
and `replied` both set; `simple_udp_ping_has_reply A` and `simple_udp_ping_has_sent A`
are both 1 only when the slot of `A` is replied and waiting (and not sent); and
after an inbound "echo" from a tracked `A` is processed, `simple_udp_ping_has_reply A`
is 1 and `simple_udp_ping_has_sent A` is 1 exactly when the slot was waiting. -/
theorem C14_reply_and_outstanding (P : Platform) (n : Nat) (es : List Event) (s : State)
    (A : uip_ipaddr_t) (h : run P (init n) es = some s) :
    (∀ c ∈ s.pingconns, ¬ (c.sent = true ∧ c.replied = true)) ∧
    (simple_udp_ping_has_reply s A = 1 → simple_udp_ping_has_sent s A = 1 →
      ∃ i, get_pingconn s A = some i ∧ (pingconn_at s i).waiting = true ∧
        (pingconn_at s i).replied = true ∧ (pingconn_at s i).sent = false) ∧
    (∀ i now_c1 now_c2 now_f : Nat, get_pingconn s A = some i →
      simple_udp_ping_has_reply (receiver P s A ECHO now_c1 now_c2 now_f).1 A = 1 ∧
      simple_udp_ping_has_sent (receiver P s A ECHO now_c1 now_c2 now_f).1 A =
        if (pingconn_at s i).waiting = true then 1 else 0) := by
  have hinv : no_sent_replied s := no_sent_replied_run h (no_sent_replied_init n)
  refine ⟨hinv, ?_, ?_⟩
  · intro hr hs
    cases hg : get_pingconn s A with
    | none =>
      unfold simple_udp_ping_has_reply at hr
      rw [hg] at hr
      cases hr
    | some i =>
      obtain ⟨c, hc, _, _⟩ := get_pingconn_slot hg
      have hat := pingconn_at_of_getElem? hc
      have hmem : pingconn_at s i ∈ s.pingconns := by
        rw [hat]
        exact List.getElem?_mem hc
      have hns := hinv _ hmem
      rw [has_reply_of_get hg] at hr
      rw [has_sent_of_get hg] at hs
      have hrep : (pingconn_at s i).replied = true := by
        by_contra hne
        rw [if_neg hne] at hr
        cases hr
      have hsent : (pingconn_at s i).sent = false := by
        cases hse : (pingconn_at s i).sent with
        | false => rfl
        | true => exact absurd ⟨hse, hrep⟩ hns
      have hwait : (pingconn_at s i).waiting = true := by
        by_contra hne
        rw [if_neg (by simp [hne, hsent])] at hs
        cases hs
      exact ⟨i, rfl, hwait, hrep, hsent⟩
  · intro i now_c1 now_c2 now_f hg
    have hi : i < s.pingconns.length := first_index_lt_length hg
    have hg1 : get_pingconn ⟨modify_at (on_echo P now_c1 now_c2 now_f) s.pingconns i, s.last⟩ A =
        some i := by
      rw [get_pingconn_modify_flags (on_echo P now_c1 now_c2 now_f) s i s.last A
        (fun c => ⟨rfl, rfl⟩)]
      exact hg
    have hat : pingconn_at ⟨modify_at (on_echo P now_c1 now_c2 now_f) s.pingconns i, s.last⟩ i =
        on_echo P now_c1 now_c2 now_f (pingconn_at s i) :=
      pingconn_at_modify_at_self _ _ _ s.last i hi
    rw [receiver_echo_tracked P now_c1 now_c2 now_f hg]
    refine ⟨?_, ?_⟩
    · rw [has_reply_of_get hg1, hat]
      simp [on_echo]
    · rw [has_sent_of_get hg1, hat]
      simp [on_echo]

/-- C14 at a concrete run: request 1, tick, echo from 1 on a table of two slots;
the state reached has `simple_udp_ping_has_reply 1 = 1` and
`simple_udp_ping_has_sent 1 = 0`, and no slot with `sent` and `replied` both set. -/
theorem C14_reply_and_outstanding_witness :
    run cortex_m (init 2) [Event.send_ping 1, Event.tick 5 7, Event.recv 1 ECHO 9 9 11] =
      some ⟨[⟨true, false, false, true, 5, 7, 6, 1⟩, zero_conn], 2⟩ ∧
    ∀ c ∈ [(⟨true, false, false, true, 5, 7, 6, 1⟩ : pingconn_t), zero_conn],
      ¬ (c.sent = true ∧ c.replied = true) :=
  ⟨by decide,
   (C14_reply_and_outstanding cortex_m 2
      [Event.send_ping 1, Event.tick 5 7, Event.recv 1 ECHO 9 9 11]
      ⟨[⟨true, false, false, true, 5, 7, 6, 1⟩, zero_conn], 2⟩ 1 (by decide)).1⟩

/-- C14 as stated fails: request 1, tick, request 1 again, echo from 1 is a run
from the initial table after which `simple_udp_ping_has_reply 1` and
`simple_udp_ping_has_sent 1` are both 1: the echo sets `replied`, clears `sent` and
leaves `waiting` set. -/
theorem C14_stated_counterexample :
    (run cortex_m (init 2)
        [Event.send_ping 1, Event.tick 5 7, Event.send_ping 1, Event.recv 1 ECHO 9 9 11]).map
      (fun s => (simple_udp_ping_has_reply s 1, simple_udp_ping_has_sent s 1,
        (pingconn_at s 0).waiting, (pingconn_at s 0).sent, (pingconn_at s 0).replied)) =
      some (1, 1, true, false, true) := by
  decide

/-- C15 (amended): after `simple_udp_ping_clear_conn A`, `simple_udp_ping_has_reply A`
is 0; for a tracked `A`, `simple_udp_ping_has_sent A` is 1 exactly when the slot was
waiting (the clear resets `replied` and `sent`, not `waiting`); for an untracked
`A` it is 0. -/
theorem C15_clear_resets_replied_and_sent (s : State) (A : uip_ipaddr_t) :
    simple_udp_ping_has_reply (simple_udp_ping_clear_conn s A) A = 0 ∧
    (∀ i, get_pingconn s A = some i →
      simple_udp_ping_has_sent (simple_udp_ping_clear_conn s A) A =
        if (pingconn_at s i).waiting = true then 1 else 0) ∧
    (get_pingconn s A = none →
      simple_udp_ping_has_sent (simple_udp_ping_clear_conn s A) A = 0) := by
  have key : ∀ i, get_pingconn s A = some i →
      get_pingconn ⟨modify_at disarm s.pingconns i, s.last⟩ A = some i ∧
      pingconn_at ⟨modify_at disarm s.pingconns i, s.last⟩ i = disarm (pingconn_at s i) := by
    intro i hg
    refine ⟨?_, pingconn_at_modify_at_self _ _ _ s.last i (first_index_lt_length hg)⟩
    rw [get_pingconn_modify_flags disarm s i s.last A (fun c => ⟨rfl, rfl⟩)]
    exact hg
  refine ⟨?_, ?_, ?_⟩
  · cases hg : get_pingconn s A with
    | none =>
      unfold simple_udp_ping_clear_conn simple_udp_ping_has_reply
      simp only [hg]
    | some i =>
      rw [clear_conn_tracked hg, has_reply_of_get (key i hg).1, (key i hg).2]
      simp [disarm]
  · intro i hg
    rw [clear_conn_tracked hg, has_sent_of_get (key i hg).1, (key i hg).2]
    simp [disarm]
  · intro hg
    unfold simple_udp_ping_clear_conn simple_udp_ping_has_sent
    simp only [hg]

/-- C15 at concrete inputs: a clear of a sent slot and of a replied slot leaves
both queries at 0. -/
theorem C15_clear_resets_replied_and_sent_witness :
    (simple_udp_ping_has_reply
        (simple_udp_ping_clear_conn ⟨[⟨true, false, true, false, 5, 7, 0, 1⟩], 1⟩ 1) 1 = 0 ∧
      simple_udp_ping_has_sent
        (simple_udp_ping_clear_conn ⟨[⟨true, false, true, false, 5, 7, 0, 1⟩], 1⟩ 1) 1 = 0) ∧
    (simple_udp_ping_has_reply
        (simple_udp_ping_clear_conn ⟨[⟨true, false, false, true, 5, 7, 6, 1⟩], 1⟩ 1) 1 = 0 ∧
      simple_udp_ping_has_sent
        (simple_udp_ping_clear_conn ⟨[⟨true, false, false, true, 5, 7, 6, 1⟩], 1⟩ 1) 1 = 0) :=
  ⟨⟨(C15_clear_resets_replied_and_sent ⟨[⟨true, false, true, false, 5, 7, 0, 1⟩], 1⟩ 1).1,
    (C15_clear_resets_replied_and_sent ⟨[⟨true, false, true, false, 5, 7, 0, 1⟩], 1⟩ 1).2.1 0
      (by decide)⟩,
   ⟨(C15_clear_resets_replied_and_sent ⟨[⟨true, false, false, true, 5, 7, 6, 1⟩], 1⟩ 1).1,
    (C15_clear_resets_replied_and_sent ⟨[⟨true, false, false, true, 5, 7, 6, 1⟩], 1⟩ 1).2.1 0
      (by decide)⟩⟩

/-- C15 as stated fails: after request 1 and clear 1 on the initial table the
slot of address 1 is still waiting and `simple_udp_ping_has_sent 1` is 1. -/
theorem C15_stated_counterexample :
    (run cortex_m (init 2) [Event.send_ping 1, Event.clear_conn 1]).map
      (fun s => (get_pingconn s 1, simple_udp_ping_has_reply s 1, simple_udp_ping_has_sent s 1,
        (pingconn_at s 0).waiting)) = some (some 0, 0, 1, true) := by
  decide

/-- C16: `simple_udp_ping_clear_conn A` keeps the cursor and the size of the table,
the `in_use` flag and the host of every slot, and the slot found for every address
(so `A`, if tracked, is found in the same slot); it makes
`simple_udp_ping_has_reply A` 0; it leaves every slot other than the one found for
`A` as it was, and in that slot it changes `replied` and `sent` only; when `A` is
not tracked the whole state is unchanged. -/
theorem C16_clear_keeps_slot (s : State) (A : uip_ipaddr_t) :
    (simple_udp_ping_clear_conn s A).last = s.last ∧
    (simple_udp_ping_clear_conn s A).pingconns.length = s.pingconns.length ∧
    (∀ j : Nat, ((simple_udp_ping_clear_conn s A).pingconns[j]?).map (fun c => (c.in_use, c.host)) =
      (s.pingconns[j]?).map (fun c => (c.in_use, c.host))) ∧
    (∀ B, get_pingconn (simple_udp_ping_clear_conn s A) B = get_pingconn s B) ∧
    simple_udp_ping_has_reply (simple_udp_ping_clear_conn s A) A = 0 ∧
    (∀ j : Nat, get_pingconn s A ≠ some j →
      (simple_udp_ping_clear_conn s A).pingconns[j]? = s.pingconns[j]?) ∧
    (∀ (i : Nat) (c : pingconn_t), get_pingconn s A = some i → s.pingconns[i]? = some c →
      ∃ c1, (simple_udp_ping_clear_conn s A).pingconns[i]? = some c1 ∧
        c1.replied = false ∧ c1.sent = false ∧ c1.in_use = c.in_use ∧ c1.waiting = c.waiting ∧
        c1.echo_time = c.echo_time ∧ c1.echo_time2 = c.echo_time2 ∧ c1.delay = c.delay ∧
        c1.host = c.host) ∧
    (get_pingconn s A = none → simple_udp_ping_clear_conn s A = s) := by
  refine ⟨?_, ?_, ?_, ?_, has_reply_clear_conn s A, ?_, ?_, ?_⟩
  · unfold simple_udp_ping_clear_conn
    cases get_pingconn s A <;> rfl
  · unfold simple_udp_ping_clear_conn
    cases get_pingconn s A with
    | none => rfl
    | some i => exact length_modify_at _ _ _
  · intro j
    unfold simple_udp_ping_clear_conn
    cases get_pingconn s A with
    | none => rfl
    | some i =>
      show ((modify_at disarm s.pingconns i)[j]?).map _ = _
      rw [getElem?_modify_at]
      by_cases hji : j = i
      · rw [if_pos hji]
        cases s.pingconns[j]? <;> simp [disarm]
      · rw [if_neg hji]
  · intro B
    unfold simple_udp_ping_clear_conn
    cases get_pingconn s A with
    | none => rfl
    | some i => exact get_pingconn_modify_flags disarm s i s.last B (fun c => ⟨rfl, rfl⟩)
  · intro j hj
    unfold simple_udp_ping_clear_conn
    cases hg : get_pingconn s A with
    | none => rfl
    | some i =>
      have hji : j ≠ i := by
        intro h
        rw [hg, h] at hj
        exact hj rfl
      exact getElem?_modify_at_ne _ _ hji
  · intro i c hg hc
    rw [clear_conn_tracked hg]
    refine ⟨disarm c, ?_, rfl, rfl, rfl, rfl, rfl, rfl, rfl, rfl⟩
    simp [getElem?_modify_at, hc]
  · intro hg
    unfold simple_udp_ping_clear_conn
    rw [hg]

/-- C16 at concrete inputs: a clear of the tracked address 2 (replied) and of the
untracked address 9 on a table tracking 1 and 2. -/
theorem C16_clear_keeps_slot_witness :
    simple_udp_ping_clear_conn
        ⟨[⟨true, true, true, false, 5, 7, 0, 1⟩, ⟨true, false, false, true, 8, 9, 6, 2⟩], 2⟩ 2 =
      ⟨[⟨true, true, true, false, 5, 7, 0, 1⟩, ⟨true, false, false, false, 8, 9, 6, 2⟩], 2⟩ ∧
    simple_udp_ping_clear_conn
        ⟨[⟨true, true, true, false, 5, 7, 0, 1⟩, ⟨true, false, false, true, 8, 9, 6, 2⟩], 2⟩ 9 =
      ⟨[⟨true, true, true, false, 5, 7, 0, 1⟩, ⟨true, false, false, true, 8, 9, 6, 2⟩], 2⟩ :=
  ⟨by decide,
   (C16_clear_keeps_slot
      ⟨[⟨true, true, true, false, 5, 7, 0, 1⟩, ⟨true, false, false, true, 8, 9, 6, 2⟩], 2⟩
      9).2.2.2.2.2.2.2 (by decide)⟩

/-- C17 (failing input): on a table of 2 slots, after requests for 1, 2, 3, 4 the
table is full with the cursor at 1, and a request for the untracked address 5
writes `pingconns[2]`, outside the table: the request leaves no state in which 5 is
tracked, so there is nothing for a second request to reuse. -/
theorem C17_request_at_cursor_slip :
    run cortex_m (init 2)
        [Event.send_ping 1, Event.send_ping 2, Event.send_ping 3, Event.send_ping 4,
          Event.send_ping 5] = none ∧
    run cortex_m (init 2)
        [Event.send_ping 1, Event.send_ping 2, Event.send_ping 3, Event.send_ping 4,
          Event.send_ping 5, Event.send_ping 5] = none ∧
    (run cortex_m (init 2)
        [Event.send_ping 1, Event.send_ping 2, Event.send_ping 3, Event.send_ping 4]).map
      (fun s => (get_pingconn s 5, first_free s, s.last, MAX_DESTINATIONS s)) =
        some (none, none, 1, 2) := by
  decide

/-- C18 (amended): a probe request for an untracked address `C` that goes through
(a slot is free, or the next cursor position is inside the table) takes the first
free slot, or else the slot under the new cursor; afterwards `C` is found in that
slot, the slot is in use with host `C`, `waiting` set and `replied` clear, so
`simple_udp_ping_has_sent C` is 1 and `simple_udp_ping_has_reply C` is 0; `sent`,
both timestamps and the delay of the slot are what they were before the request;
every other slot is unchanged. -/
theorem C18_new_address_slot (s : State) (C : uip_ipaddr_t)
    (hun : get_pingconn s C = none)
    (hgo : first_free s ≠ none ∨ next_last s < MAX_DESTINATIONS s) :
    ∃ s1 k c0 c1, simple_udp_ping_send_ping s C = some s1 ∧
      (first_free s = some k ∨ (first_free s = none ∧ k = next_last s)) ∧
      get_pingconn s1 C = some k ∧
      s.pingconns[k]? = some c0 ∧ s1.pingconns[k]? = some c1 ∧
      c1.in_use = true ∧ c1.host = C ∧ c1.waiting = true ∧ c1.replied = false ∧
      c1.sent = c0.sent ∧ c1.echo_time = c0.echo_time ∧ c1.echo_time2 = c0.echo_time2 ∧
      c1.delay = c0.delay ∧
      simple_udp_ping_has_sent s1 C = 1 ∧ simple_udp_ping_has_reply s1 C = 0 ∧
      ∀ j : Nat, j ≠ k → s1.pingconns[j]? = s.pingconns[j]? := by
  obtain ⟨s1, hs⟩ := (send_ping_isSome_iff s C).2 (Or.inr hgo)
  have harm : ∀ c, ((arm (claim C c)).in_use && decide ((arm (claim C c)).host = C)) = true := by
    intro c; simp [arm, claim]
  have main : ∀ k : Nat, k < s.pingconns.length →
      s1 = ⟨modify_at (fun c => arm (claim C c)) s.pingconns k, s1.last⟩ →
      (first_free s = some k ∨ (first_free s = none ∧ k = next_last s)) →
      ∃ s1 k c0 c1, simple_udp_ping_send_ping s C = some s1 ∧
        (first_free s = some k ∨ (first_free s = none ∧ k = next_last s)) ∧
        get_pingconn s1 C = some k ∧
        s.pingconns[k]? = some c0 ∧ s1.pingconns[k]? = some c1 ∧
        c1.in_use = true ∧ c1.host = C ∧ c1.waiting = true ∧ c1.replied = false ∧
        c1.sent = c0.sent ∧ c1.echo_time = c0.echo_time ∧ c1.echo_time2 = c0.echo_time2 ∧
        c1.delay = c0.delay ∧
        simple_udp_ping_has_sent s1 C = 1 ∧ simple_udp_ping_has_reply s1 C = 0 ∧
        ∀ j : Nat, j ≠ k → s1.pingconns[j]? = s.pingconns[j]? := by
    intro k hk hs1 hwhich
    have hc0 : s.pingconns[k]? = some s.pingconns[k] := List.getElem?_eq_getElem hk
    have hg1 : get_pingconn s1 C = some k := by
      rw [hs1]
      exact first_index_modify_at_new hun hk (fun c _ => harm c)
    have hc1 : s1.pingconns[k]? = some (arm (claim C s.pingconns[k])) := by
      rw [hs1]
      simp [getElem?_modify_at, hc0]
    have hat := pingconn_at_of_getElem? hc1
    refine ⟨s1, k, s.pingconns[k], arm (claim C s.pingconns[k]), hs, hwhich, hg1, hc0, hc1,
      rfl, rfl, rfl, rfl, rfl, rfl, rfl, rfl, ?_, ?_, ?_⟩
    · rw [has_sent_of_get hg1, hat]
      simp [arm]
    · rw [has_reply_of_get hg1, hat]
      simp [arm]
    · intro j hj
      rw [hs1]
      exact getElem?_modify_at_ne _ _ hj
  rcases send_ping_cases hs with ⟨i, hg, _⟩ | ⟨i, _, hf, h1⟩ | ⟨_, hf, hlt, h1⟩
  · rw [hun] at hg
    cases hg
  · exact main i (first_index_lt_length hf) (by rw [h1]) (Or.inl hf)
  · exact main (next_last s) hlt (by rw [h1]) (Or.inr ⟨hf, rfl⟩)

/-- C18 at a concrete input: on a table whose slot 0 tracks 1 and whose slot 1 was
released while sent, a request for 2 takes slot 1. -/
theorem C18_new_address_slot_witness :
    ∃ s1 k c0 c1, simple_udp_ping_send_ping
        ⟨[⟨true, false, true, false, 5, 7, 0, 1⟩, ⟨false, false, true, false, 8, 9, 6, 4⟩], 2⟩ 2 =
          some s1 ∧
      (first_free
          ⟨[⟨true, false, true, false, 5, 7, 0, 1⟩, ⟨false, false, true, false, 8, 9, 6, 4⟩], 2⟩ =
            some k ∨
        (first_free
          ⟨[⟨true, false, true, false, 5, 7, 0, 1⟩, ⟨false, false, true, false, 8, 9, 6, 4⟩], 2⟩ =
            none ∧
          k = next_last
            ⟨[⟨true, false, true, false, 5, 7, 0, 1⟩, ⟨false, false, true, false, 8, 9, 6, 4⟩],
              2⟩)) ∧
      get_pingconn s1 2 = some k ∧
      [(⟨true, false, true, false, 5, 7, 0, 1⟩ : pingconn_t),
        ⟨false, false, true, false, 8, 9, 6, 4⟩][k]? = some c0 ∧
      s1.pingconns[k]? = some c1 ∧
      c1.in_use = true ∧ c1.host = 2 ∧ c1.waiting = true ∧ c1.replied = false ∧
      c1.sent = c0.sent ∧ c1.echo_time = c0.echo_time ∧ c1.echo_time2 = c0.echo_time2 ∧
      c1.delay = c0.delay ∧
      simple_udp_ping_has_sent s1 2 = 1 ∧ simple_udp_ping_has_reply s1 2 = 0 ∧
      ∀ j : Nat, j ≠ k → s1.pingconns[j]? =
        [(⟨true, false, true, false, 5, 7, 0, 1⟩ : pingconn_t),
          ⟨false, false, true, false, 8, 9, 6, 4⟩][j]? :=
  C18_new_address_slot
    ⟨[⟨true, false, true, false, 5, 7, 0, 1⟩, ⟨false, false, true, false, 8, 9, 6, 4⟩], 2⟩ 2
    (by decide) (by decide)

/-- C18 as stated fails: on a table of one slot, request 1, a tick and request 2
evict address 1 while its probe is sent; the slot of address 2 is waiting and not
replied, and still has `sent` set and the send timestamps 5 and 7 of the probe
for address 1. -/
theorem C18_stated_counterexample :
    run cortex_m (init 1) [Event.send_ping 1, Event.tick 5 7, Event.send_ping 2] =
      some ⟨[⟨true, true, true, false, 5, 7, 0, 2⟩], 0⟩ ∧
    get_pingconn ⟨[⟨true, true, true, false, 5, 7, 0, 2⟩], 0⟩ 2 = some 0 ∧
    (pingconn_at ⟨[⟨true, true, true, false, 5, 7, 0, 2⟩], 0⟩ 0).sent = true := by
  decide

/-- C19: in a state with the uniqueness invariant, after `free_pingconn A` the
address `A` is not found; every other address is found in the same slot as
before; the cursor and the size of the table are unchanged; every slot other than
the one found for `A` is unchanged, and in that slot only `in_use` changes (to 0);
when `A` is not tracked the whole state is unchanged. -/
theorem C19_release (s : State) (A : uip_ipaddr_t) (hu : unique_hosts s) :
    get_pingconn (free_pingconn s A) A = none ∧
    (∀ B, B ≠ A → get_pingconn (free_pingconn s A) B = get_pingconn s B) ∧
    (free_pingconn s A).last = s.last ∧
    (free_pingconn s A).pingconns.length = s.pingconns.length ∧
    (∀ j : Nat, get_pingconn s A ≠ some j →
      (free_pingconn s A).pingconns[j]? = s.pingconns[j]?) ∧
    (∀ (i : Nat) (c : pingconn_t), get_pingconn s A = some i → s.pingconns[i]? = some c →
      ∃ c1, (free_pingconn s A).pingconns[i]? = some c1 ∧
        c1.in_use = false ∧ c1.waiting = c.waiting ∧ c1.sent = c.sent ∧
        c1.replied = c.replied ∧ c1.echo_time = c.echo_time ∧ c1.echo_time2 = c.echo_time2 ∧
        c1.delay = c.delay ∧ c1.host = c.host) ∧
    (get_pingconn s A = none → free_pingconn s A = s) := by
  refine ⟨get_pingconn_free_self hu, fun B hB => get_pingconn_free_other s hB, ?_, ?_, ?_, ?_, ?_⟩
  · unfold free_pingconn
    cases get_pingconn s A <;> rfl
  · unfold free_pingconn
    cases get_pingconn s A with
    | none => rfl
    | some i => exact length_modify_at _ _ _
  · intro j hj
    unfold free_pingconn
    cases hg : get_pingconn s A with
    | none => rfl
    | some i =>
      have hji : j ≠ i := by
        intro h
        rw [hg, h] at hj
        exact hj rfl
      exact getElem?_modify_at_ne _ _ hji
  · intro i c hg hc
    rw [free_pingconn_tracked hg]
    refine ⟨release c, ?_, rfl, rfl, rfl, rfl, rfl, rfl, rfl, rfl⟩
    simp [getElem?_modify_at, hc]
  · intro hg
    unfold free_pingconn
    rw [hg]

/-- C19 at a concrete input: the state reached from the initial table of two slots
by requests for 1 and 2 and a tick; a release of 1 makes 1 untracked and leaves 2
found in slot 1. -/
theorem C19_release_witness :
    get_pingconn (free_pingconn
        ⟨[⟨true, false, true, false, 5, 7, 0, 1⟩, ⟨true, true, false, false, 0, 0, 0, 2⟩], 2⟩ 1)
        1 = none ∧
    get_pingconn (free_pingconn
        ⟨[⟨true, false, true, false, 5, 7, 0, 1⟩, ⟨true, true, false, false, 0, 0, 0, 2⟩], 2⟩ 1)
        2 = some 1 :=
  have hu : unique_hosts
      ⟨[⟨true, false, true, false, 5, 7, 0, 1⟩, ⟨true, true, false, false, 0, 0, 0, 2⟩], 2⟩ :=
    @unique_hosts_run cortex_m (init 2) _
      [Event.send_ping 1, Event.send_ping 2, Event.tick 5 7] (by decide) (unique_hosts_init 2)
  ⟨(C19_release _ 1 hu).1, ((C19_release _ 1 hu).2.1 2 (by decide)).trans (by decide)⟩

end SimpleUdpPing

namespace Ip64Tap

/-- When `select` reports nothing pending, `ip64_tap_poll` returns 0. -/
theorem ip64_tap_poll_nothing_pending (read_ret : Int) : ip64_tap_poll 0 read_ret = 0 := by
  simp [ip64_tap_poll]

/-- When `read` succeeds with `n` bytes, `n` at most `buflen`, `ip64_tap_poll`
returns `n`. -/
theorem ip64_tap_poll_read_ok (select_ret : Int) (n buflen : Nat) (hs : select_ret ≠ 0)
    (hn : n ≤ buflen) (hb : buflen < 65536) :
    ip64_tap_poll select_ret (n : Int) = n ∧ ip64_tap_poll select_ret (n : Int) ≤ buflen := by
  have h : ip64_tap_poll select_ret (n : Int) = n := by
    unfold ip64_tap_poll to_uint16
    rw [if_neg hs]
    omega
  exact ⟨h, by rw [h]; exact hn⟩

/-- C20 (failing input): `select` reports one descriptor ready (or fails with -1),
`read` fails with -1 and `buflen` is 1500: `ip64_tap_poll` returns
`(uint16_t)-1` = 65535, more than the buffer holds. -/
theorem C20_poll_failed_read :
    ip64_tap_poll 1 (-1) = 65535 ∧ ip64_tap_poll (-1) (-1) = 65535 ∧ ¬ (65535 ≤ 1500) := by
  decide

end Ip64Tap
